import Mathlib

/-!
Shallow embedding of two components of the repository:

* `src/lib/revisionstore/src/dataindex.rs` — the content-addressed
  delta-pack index (`DataIndex`): writer, reader and entry codecs.
* `src/edenscmnative/bindings/modules/pyrevlogindex/src/lib.rs` — the
  revlog DAG reader (`RevlogIndex`): `parents`, `insert` and the
  `phasesets` phase-propagation routine.

Bytes are modelled as `Nat` (values below 256 where it matters), files as
`List Nat`, machine integers as `Nat`/`Int` with explicit `% 2 ^ w`
reductions.  Fallible code returns `Except`/`Option`; a Rust panic
(out-of-bounds index or failed `assert!`) is modelled as `none`.
Components of the repository that are not part of the given sources
(`FanoutTable`, `SliceExt::get_err`, `types::Node`, `dag::SpanSet`) are
modelled from the specification; each such definition says so in its
doc comment.
-/

/-- `ENTRY_LEN`: byte width of one on-disk index entry. -/
def ENTRY_LEN : Nat := 40

/-- `SMALL_FANOUT_CUTOFF` (`2 ^ 16 / 8`): above this many values the writer
switches to the large fanout. -/
def SMALL_FANOUT_CUTOFF : Nat := 8192

/-- Big-endian encoding of `v` into `w` bytes (most significant first),
modelling `byteorder`'s `write_uNN::<BigEndian>` (and `write_i32` applied to
the two's-complement bit pattern). -/
def be : Nat → Nat → List Nat
  | 0, _ => []
  | w + 1, v => v / 256 ^ w % 256 :: be w v

/-- Big-endian decoding of a byte list, modelling `read_uNN::<BigEndian>`. -/
def beDecode (l : List Nat) : Nat := l.foldl (fun a b => a * 256 + b) 0

/-- Two's-complement wrap of an integer to 32 bits, i.e. the value of
`z as u32` (also the bit pattern written for an `i32` value `z`). -/
def u32cast (z : Int) : Nat := (z % (2 ^ 32 : Int)).toNat

/-- Signed value of a 32-bit pattern: the `i32` whose bits are `n`. -/
def i32val (n : Nat) : Int := if n < 2 ^ 31 then (n : Int) else (n : Int) - 2 ^ 32

/-- Rust `<[u8]>::cmp`: lexicographic comparison of byte slices, a shorter
strict prelude comparing less. -/
def compareBytes : List Nat → List Nat → Ordering
  | [], [] => .eq
  | [], _ :: _ => .lt
  | _ :: _, [] => .gt
  | a :: as, b :: bs => if a < b then .lt else if b < a then .gt else compareBytes as bs

/-- A node is a 20-byte identifier with byte values below 256. -/
def ValidNode (n : List Nat) : Prop := n.length = 20 ∧ ∀ b ∈ n, b < 256

instance : DecidablePred ValidNode := fun n => by unfold ValidNode; infer_instance

/-- Error kinds observable from the dataindex code, following the spec's
taxonomy (§7).  The source folds the header and delta-base failures into one
`DataIndexError(String)` type; the distinct constructors record which check
fired, with `keyNotFound` modelling the `KeyError` wrapper. -/
inductive DErr where
  | invalidHeader
  | invalidDeltaBaseOffset (v : Int)
  | invalidEntryOffset
  | ioEof
  | badNode
  | keyNotFound
deriving DecidableEq

/-- Modelled from the spec: `SliceExt::get_err` (its source is not under
`src/`) returns the subslice `l[a..b]`, failing when the range leaves the
slice (spec §7 `InvalidEntryOffset`). -/
def get_err (l : List Nat) (a b : Nat) : Except DErr (List Nat) :=
  if a ≤ b ∧ b ≤ l.length then .ok ((l.drop a).take (b - a)) else .error .invalidEntryOffset

/-- Cursor read of `k` bytes at position `pos`, modelling `std::io::Read` on
a `Cursor`: fails (unexpected EOF) when fewer than `k` bytes remain. -/
def readAt (buf : List Nat) (pos k : Nat) : Except DErr (List Nat) :=
  if pos + k ≤ buf.length then .ok ((buf.drop pos).take k) else .error .ioEof

/-- Modelled from the spec: `types::Node` (not under `src/`) is a 20-byte
content identifier; `Node::from_slice` fails unless given exactly 20 bytes. -/
def Node.from_slice (l : List Nat) : Except DErr (List Nat) :=
  if l.length = 20 then .ok l else .error .badNode

/-- `DeltaLocation`: writer input value for one node. -/
structure DeltaLocation where
  delta_base : Option (List Nat)
  offset : Nat
  size : Nat

/-- `DeltaBaseOffset`: three-variant in-memory domain of a delta base. -/
inductive DeltaBaseOffset where
  | offset (value : Nat)
  | fullText
  | missing
deriving DecidableEq

/-- `DeltaBaseOffset::new`: decode the signed on-disk value. -/
def DeltaBaseOffset.new (value : Int) : Except DErr DeltaBaseOffset :=
  if 0 ≤ value then .ok (.offset value.toNat)
  else if value = -1 then .ok .fullText
  else if value = -2 then .ok .missing
  else .error (.invalidDeltaBaseOffset value)

/-- `DeltaBaseOffset::to_i32` (`Offset(value) => value as i32`). -/
def DeltaBaseOffset.to_i32 : DeltaBaseOffset → Int
  | .offset value => i32val value
  | .fullText => -1
  | .missing => -2

/-- In-memory index entry; `delta_base_offset` is the raw `u32` with the two
sentinel values (`0xffffffff` full text, `0xfffffffe` missing). -/
structure IndexEntry where
  node : List Nat
  delta_base_offset : Nat
  pack_entry_offset : Nat
  pack_entry_size : Nat
deriving DecidableEq

/-- `IndexEntry::new`: encode the tagged variant into the raw `u32`. -/
def IndexEntry.new (node : List Nat) (delta_base_offset : DeltaBaseOffset)
    (pack_entry_offset pack_entry_size : Nat) : IndexEntry :=
  { node
    delta_base_offset :=
      match delta_base_offset with
      | .fullText => 0xffffffff
      | .missing => 0xfffffffe
      | .offset value => value
    pack_entry_offset
    pack_entry_size }

/-- The getter `IndexEntry::delta_base_offset()`, decoding the sentinels. -/
def IndexEntry.delta_base_offset' (e : IndexEntry) : DeltaBaseOffset :=
  if e.delta_base_offset = 0xffffffff then .fullText
  else if e.delta_base_offset = 0xfffffffe then .missing
  else .offset e.delta_base_offset

/-- `IndexEntry::read`: node bytes via `get_err(0..20)` and `Node::from_slice`,
then cursor reads of the signed delta-base offset and the two `u64`s. -/
def IndexEntry.read (buf : List Nat) : Except DErr IndexEntry := do
  let node_slice ← get_err buf 0 20
  let node ← Node.from_slice node_slice
  let d4 ← readAt buf 20 4
  let delta_base_offset ← DeltaBaseOffset.new (i32val (beDecode d4))
  let o8 ← readAt buf 24 8
  let s8 ← readAt buf 32 8
  .ok (IndexEntry.new node delta_base_offset (beDecode o8) (beDecode s8))

/-- `IndexEntry::write`: node bytes, then the bit pattern of
`delta_base_offset().to_i32()` big-endian, then the two `u64`s. -/
def IndexEntry.writeBytes (e : IndexEntry) : List Nat :=
  e.node ++ be 4 (u32cast e.delta_base_offset'.to_i32) ++
    be 8 e.pack_entry_offset ++ be 8 e.pack_entry_size

/-- `DataIndexOptions`: parsed header. -/
structure DataIndexOptions where
  version : Nat
  large : Bool
deriving DecidableEq

/-- `DataIndexOptions::read`: version byte (at most 1), then the config byte
(`0x80` large, `0` small, anything else invalid). -/
def DataIndexOptions.read (buf : List Nat) : Except DErr DataIndexOptions :=
  match buf with
  | [] => .error .ioEof
  | version :: rest =>
    if 1 < version then .error .invalidHeader
    else
      match rest with
      | [] => .error .ioEof
      | raw_config :: _ =>
        if raw_config = 128 then .ok ⟨version, true⟩
        else if raw_config = 0 then .ok ⟨version, false⟩
        else .error .invalidHeader

/-- `DataIndexOptions::write`. -/
def DataIndexOptions.writeBytes (o : DataIndexOptions) : List Nat :=
  [o.version, if o.large then 128 else 0]

/-- Modelled from the spec: `FanoutTable::get_size` (not under `src/`);
§3: 256 or 65536 slots of 4 bytes each. -/
def FanoutTable.get_size (large : Bool) : Nat := if large then 65536 * 4 else 256 * 4

/-- Fanout lookup key of a node: its first byte, or its first two bytes
(big-endian) for the large table (spec §3). -/
def pfxOf (large : Bool) (n : List Nat) : Nat :=
  if large then 256 * n.getD 0 0 + n.getD 1 0 else n.getD 0 0

/-- Modelled from the spec: the table `FanoutTable::write` emits (§3, §4.1
step 3): slot `p` holds the byte offset of the first entry whose node carries
that one- or two-byte key, with unused slots right-filled, i.e.
`ENTRY_LEN ·` the number of nodes with key below `p`. -/
def fanoutTable (large : Bool) (nodes : List (List Nat)) : List Nat :=
  (List.range (if large then 65536 else 256)).map
    (fun p => ENTRY_LEN * nodes.countP (fun n => decide (pfxOf large n < p)))

/-- Modelled from the spec: `FanoutTable::get_bounds` (§4.2 step 1): read the
4-byte big-endian slots `p` and `p + 1` of the serialized table; the upper
bound is `none` for the last slot.  Whether the table is large is determined
by the slice length. -/
def FanoutTable.get_bounds (slice : List Nat) (node : List Nat) : Nat × Option Nat :=
  let large := decide (slice.length = 65536 * 4)
  let p := pfxOf large node
  let start := beDecode ((slice.drop (4 * p)).take 4)
  let stop := if p = (if large then 65535 else 255) then none
              else some (beDecode ((slice.drop (4 * (p + 1))).take 4))
  (start, stop)

/-- The `nodelocations` map of `DataIndex::write`: position of node `b`
among the sorted nodes, scaled by `ENTRY_LEN` (the writer stores
`locations[i] = i · ENTRY_LEN`, the position output of `FanoutTable::write`
per spec §4.1 step 3). -/
def nodelocations (nodes : List (List Nat)) (b : List Nat) : Option Nat :=
  (nodes.findIdx? (fun n => decide (n = b))).map (fun i => ENTRY_LEN * i)

/-- Key order used by `values.sort_by_key(|x| x.0)`. -/
def nodeLe (a b : List Nat × DeltaLocation) : Bool :=
  decide (compareBytes a.1 b.1 ≠ Ordering.gt)

/-- The delta-base resolution of `DataIndex::write` (§4.1 step 5): `None`
is full text; a base found among the keys becomes its entry offset; a base
absent from the keys is recorded as missing, never a failure. -/
def resolveBase (nodes : List (List Nat)) (loc : DeltaLocation) : DeltaBaseOffset :=
  match loc.delta_base with
  | none => .fullText
  | some delta_base =>
    match nodelocations nodes delta_base with
    | some x => .offset x
    | none => .missing

/-- The entry `DataIndex::write` emits for one `(node, value)` pair. -/
def writeEntry (nodes : List (List Nat)) (nv : List Nat × DeltaLocation) : IndexEntry :=
  IndexEntry.new nv.1 (resolveBase nodes nv.2) nv.2.offset nv.2.size

/-- The writer's `values.sort_by_key(|x| x.0)` result. -/
def sortedValues (values : List (List Nat × DeltaLocation)) :
    List (List Nat × DeltaLocation) :=
  values.mergeSort nodeLe

/-- Keys of the sorted entries, in on-disk order. -/
def sortedNodes (values : List (List Nat × DeltaLocation)) : List (List Nat) :=
  (sortedValues values).map Prod.fst

/-- `DataIndex::write`: header (version 1, large iff more than
`SMALL_FANOUT_CUTOFF` values), fanout, `u64` entry count, then the sorted
40-byte entries.  The input map is a key-value list (iteration order of the
`HashMap` is irrelevant: the writer sorts); I/O errors are out of scope, so
the function is total. -/
def DataIndex.write (values : List (List Nat × DeltaLocation)) : List Nat :=
  let options : DataIndexOptions := ⟨1, SMALL_FANOUT_CUTOFF < values.length⟩
  options.writeBytes ++
    (fanoutTable options.large (sortedNodes values)).flatMap (be 4) ++
    be 8 values.length ++
    (sortedValues values).flatMap (fun nv => (writeEntry (sortedNodes values) nv).writeBytes)

/-- The open reader: mapped bytes plus the two parsed layout offsets. -/
structure DataIndex where
  mmap : List Nat
  fanout_size : Nat
  index_start : Nat

/-- `DataIndex::new`: reject an empty file, parse the header, and compute
`index_start = 2 + fanout_size (+ 8 for version 1)`. -/
def DataIndex.new (file : List Nat) : Except DErr DataIndex :=
  if file.length < 1 then .error .invalidHeader
  else
    match DataIndexOptions.read file with
    | .error e => .error e
    | .ok options =>
      let fanout_size := FanoutTable.get_size options.large
      let index_start := 2 + fanout_size + (if options.version = 1 then 8 else 0)
      .ok ⟨file, fanout_size, index_start⟩

/-- `DataIndex::get_fanout_slice`: `mmap[2 .. 2 + fanout_size]`. -/
def DataIndex.get_fanout_slice (d : DataIndex) : List Nat :=
  (d.mmap.drop 2).take d.fanout_size

/-- Core loop of `<[T]>::binary_search_by` (base/size formulation): keep the
half window whose first comparison is not `Greater`. -/
def bsBase (cmp : Nat → Ordering) (base size : Nat) : Nat :=
  if _h : 1 < size then
    let half := size / 2
    if cmp (base + half) = .gt then bsBase cmp base (size - half)
    else bsBase cmp (base + half) (size - half)
  else base
termination_by size
decreasing_by
  all_goals omega

/-- `<[T]>::binary_search_by` on indices `[0, size)`: `ok` with the position
of an `eq` comparison, `error` with the insertion point. -/
def binarySearchBy (cmp : Nat → Ordering) (size : Nat) : Except Nat Nat :=
  if size = 0 then .error 0
  else
    let b := bsBase cmp 0 size
    match cmp b with
    | .eq => .ok b
    | .lt => .error (b + 1)
    | .gt => .error b

/-- `DataIndex::binary_search`: cast the slice into 40-byte records, bisect
on their first 20 bytes, and scale a hit back to a byte offset; a miss is a
`KeyError`. -/
def DataIndex.binary_search (key slice : List Nat) : Except DErr Nat :=
  let size := slice.length / ENTRY_LEN
  match binarySearchBy
      (fun i => compareBytes (((slice.drop (ENTRY_LEN * i)).take ENTRY_LEN).take 20) key)
      size with
  | .ok i => .ok (i * ENTRY_LEN)
  | .error _ => .error .keyNotFound

/-- `DataIndex::read_entry`: decode the 40-byte record at `offset` relative
to the start of the entry table. -/
def DataIndex.read_entry (d : DataIndex) (offset : Nat) : Except DErr IndexEntry := do
  let offset := offset + d.index_start
  let raw ← get_err d.mmap offset (offset + ENTRY_LEN)
  IndexEntry.read raw

/-- `DataIndex::get_entry`: fanout bounds, binary search of the bounded
slice, then decode at the found offset.  The `mmap[start..stop]` slice is
modelled by `drop`/`take`; the theorems only exercise in-bounds slices. -/
def DataIndex.get_entry (d : DataIndex) (node : List Nat) : Except DErr IndexEntry := do
  let bounds := FanoutTable.get_bounds d.get_fanout_slice node
  let start := bounds.1 + d.index_start
  let stop := match bounds.2 with
    | none => d.mmap.length
    | some pos => pos + d.index_start
  let entry_offset ← DataIndex.binary_search node ((d.mmap.drop start).take (stop - start))
  d.read_entry (start + entry_offset - d.index_start)

/-- One revlog index record.  Only the big-endian parent fields are consumed
by this core; `offset_flags`, the lengths, `base`, `link` and the 32-byte
node are present on disk but dead code here.  `p1`/`p2` hold the decoded
(`i32::from_be`) signed values. -/
structure RevlogEntry where
  p1 : Int
  p2 : Int

/-- `RevlogIndex`: on-disk records plus the in-memory tail of inserted
parent lists. -/
structure RevlogIndex where
  data : List RevlogEntry
  inserted : List (List Nat)

/-- `RevlogIndex::data_len`: revisions stored in the original revlog. -/
def RevlogIndex.data_len (ri : RevlogIndex) : Nat := ri.data.length

/-- `RevlogIndex::len`: on-disk revisions plus the tail. -/
def RevlogIndex.len (ri : RevlogIndex) : Nat := ri.data_len + ri.inserted.length

/-- `RevlogIndex::parents`.  A tail revision clones its stored list (an
out-of-range tail index panics: `none`).  An on-disk revision decodes
`p1`/`p2` with the sentinel `-1`; the `assert!` calls (`p2 == -1` whenever
`p1 == -1`, and every parent below `rev` after the `as u32` cast) panic when
violated: `none`. -/
def RevlogIndex.parents (ri : RevlogIndex) (rev : Nat) : Option (List Nat) :=
  if ri.data_len ≤ rev then
    ri.inserted[rev - ri.data_len]?
  else
    match ri.data[rev]? with
    | none => none
    | some e =>
      if e.p1 = -1 then
        if e.p2 = -1 then some [] else none
      else if e.p2 = -1 then
        if u32cast e.p1 < rev then some [u32cast e.p1] else none
      else
        if u32cast e.p1 < rev ∧ u32cast e.p2 < rev then
          some [u32cast e.p1, u32cast e.p2]
        else none

/-- `RevlogIndex::insert`: append one parent list to the tail. -/
def RevlogIndex.insert (ri : RevlogIndex) (parents : List Nat) : RevlogIndex :=
  { ri with inserted := ri.inserted ++ [parents] }

/-- `k` successive `insert` calls. -/
def RevlogIndex.insertMany (ri : RevlogIndex) (ls : List (List Nat)) : RevlogIndex :=
  ls.foldl RevlogIndex.insert ri

/-- The internal phase enum, ordered `Unspecified < Draft < Public`. -/
inductive Phase where
  | unspecified
  | draft
  | public
deriving DecidableEq

/-- Rank giving the derived `Ord` of the source enum. -/
def Phase.toNat : Phase → Nat
  | .unspecified => 0
  | .draft => 1
  | .public => 2

/-- `Phase::max` (`if self > other { self } else { other }`). -/
def Phase.max (a b : Phase) : Phase := if b.toNat < a.toNat then a else b

/-- One `phases[rev] = p` head assignment; an index at or past the end
panics: `none`. -/
def setPhase (phases : List Phase) (rev : Nat) (p : Phase) : Option (List Phase) :=
  if rev < phases.length then some (phases.set rev p) else none

/-- The head-initialization loop of `phasesets` for one head list. -/
def initFold (phases : List Phase) (heads : List Nat) (p : Phase) : Option (List Phase) :=
  heads.foldlM (fun a rev => setPhase a rev p) phases

/-- The parent-propagation inner loop: `phases[p] = phases[p].max(phase)`
for each parent (a read out of range panics: `none`). -/
def propagate (phases : List Phase) (ph : Phase) (ps : List Nat) : Option (List Phase) :=
  ps.foldlM
    (fun a q =>
      match a[q]? with
      | none => none
      | some old => some (a.set q (old.max ph)))
    phases

/-- The main reverse walk of `phasesets`, processing revisions `n - 1, …, 0`:
read the phase, push the revision onto the matching span set, propagate to
parents.  The two span sets are modelled from the spec as push lists
(`dag::SpanSet` is not under `src/`; membership is what the claims use). -/
def phaseLoop (ri : RevlogIndex) :
    Nat → List Phase × List Nat × List Nat → Option (List Phase × List Nat × List Nat)
  | 0, st => some st
  | n + 1, (phases, pub, dra) => do
    let ph ← phases[n]?
    let pub2 := if ph = Phase.public then pub ++ [n] else pub
    let dra2 := if ph = Phase.draft then dra ++ [n] else dra
    let ps ← ri.parents n
    let phases2 ← propagate phases ph ps
    phaseLoop ri n (phases2, pub2, dra2)

/-- `revlogindex::phasesets`: all-`Unspecified` phase array of length
`len()`, draft heads assigned then public heads (public overwrites), then
the reverse-topological propagation walk; returns `(public_set, draft_set)`. -/
def RevlogIndex.phasesets (ri : RevlogIndex) (publicheads draftheads : List Nat) :
    Option (List Nat × List Nat) := do
  let phases0 := List.replicate ri.len Phase.unspecified
  let phases1 ← initFold phases0 draftheads Phase.draft
  let phases2 ← initFold phases1 publicheads Phase.public
  let (_, pub, dra) ← phaseLoop ri ri.len (phases2, [], [])
  some (pub, dra)

/-- Spec-level ancestor relation: `Reaches pf len h x` holds when `x` is an
ancestor of `h` (inclusively) following parent lists of revisions below
`len`. -/
inductive Reaches (pf : Nat → List Nat) (len : Nat) : Nat → Nat → Prop
  | refl (x : Nat) : Reaches pf len x x
  | step {h c p : Nat} : Reaches pf len h c → c < len → p ∈ pf c → Reaches pf len h p

/-- Stratified ancestor relation: like `Reaches`, but every revision whose
parent list is followed is at least `n` (the still-unprocessed boundary of
the reverse walk). -/
inductive ReachesA (pf : Nat → List Nat) (len : Nat) (n : Nat) : Nat → Nat → Prop
  | refl (x : Nat) : ReachesA pf len n x x
  | step {h c p : Nat} :
      ReachesA pf len n h c → n ≤ c → c < len → p ∈ pf c → ReachesA pf len n h p

/-- The effective parent function of a `RevlogIndex` (empty list where
`parents` panics; the theorems' hypotheses rule that out below `len`). -/
def RevlogIndex.pf (ri : RevlogIndex) : Nat → List Nat :=
  fun rev => (ri.parents rev).getD []

/-! ## Helper lemmas -/

lemma insertMany_spec (ri : RevlogIndex) (ls : List (List Nat)) :
    (ri.insertMany ls).data = ri.data ∧ (ri.insertMany ls).inserted = ri.inserted ++ ls := by
  induction ls generalizing ri with
  | nil => simp [RevlogIndex.insertMany]
  | cons x xs ih =>
    have h := ih (ri.insert x)
    simp only [RevlogIndex.insertMany, List.foldl_cons] at h ⊢
    simpa [RevlogIndex.insert, List.append_assoc] using h

/-! ## Claim theorems (first batch) -/

/-- C10: composing `IndexEntry::new` with the getter `delta_base_offset()`
is the identity on `FullText`, `Missing`, and `Offset v` for every `v`
outside the two reserved values, while `Offset 0xffffffff` reads back as
`FullText` and `Offset 0xfffffffe` as `Missing`, because the in-memory `u32`
reuses those values as sentinels. -/
theorem index_entry_sentinel_aliasing (node : List Nat) (o s v : Nat) (_hv : v < 2 ^ 32) :
    (IndexEntry.new node .fullText o s).delta_base_offset' = .fullText ∧
    (IndexEntry.new node .missing o s).delta_base_offset' = .missing ∧
    (v ≠ 0xffffffff → v ≠ 0xfffffffe →
      (IndexEntry.new node (.offset v) o s).delta_base_offset' = .offset v) ∧
    (IndexEntry.new node (.offset 0xffffffff) o s).delta_base_offset' = .fullText ∧
    (IndexEntry.new node (.offset 0xfffffffe) o s).delta_base_offset' = .missing := by
  refine ⟨by simp [IndexEntry.new, IndexEntry.delta_base_offset'],
    by simp [IndexEntry.new, IndexEntry.delta_base_offset'], ?_,
    by simp [IndexEntry.new, IndexEntry.delta_base_offset'],
    by simp [IndexEntry.new, IndexEntry.delta_base_offset']⟩
  intro h1 h2
  simp [IndexEntry.new, IndexEntry.delta_base_offset', h1, h2]

/-- Witness for C10 at `v = 5`. -/
theorem index_entry_sentinel_aliasing_witness :
    (5 : Nat) < 2 ^ 32 ∧
      (IndexEntry.new [] (.offset 5) 0 0).delta_base_offset' = .offset 5 :=
  ⟨by decide,
    (index_entry_sentinel_aliasing [] 0 0 5 (by decide)).2.2.1 (by decide) (by decide)⟩

/-- C7: for an on-disk revision (`data[rev]` present), `parents` returns
`[]` when the decoded big-endian `p1` is `-1` and `p2` is `-1` (the
`assert!` panics when `p2` is not), `[p1]` when only `p2` is `-1`, and
`[p1, p2]` when neither is; every returned parent is strictly below `rev`
(enforced by the `assert!` calls, whose failure is modelled as `none`). -/
theorem revlog_parents_sentinels (ri : RevlogIndex) (rev : Nat) (e : RevlogEntry)
    (he : ri.data[rev]? = some e) :
    (e.p1 = -1 → e.p2 = -1 → ri.parents rev = some []) ∧
    (e.p1 = -1 → e.p2 ≠ -1 → ri.parents rev = none) ∧
    (e.p1 ≠ -1 → e.p2 = -1 → u32cast e.p1 < rev → ri.parents rev = some [u32cast e.p1]) ∧
    (e.p1 ≠ -1 → e.p2 ≠ -1 → u32cast e.p1 < rev → u32cast e.p2 < rev →
      ri.parents rev = some [u32cast e.p1, u32cast e.p2]) ∧
    (∀ l, ri.parents rev = some l → ∀ q ∈ l, q < rev) := by
  have hlt : rev < ri.data.length := by
    have := List.getElem?_eq_some_iff.mp he
    exact this.1
  have hnd : ¬ ri.data_len ≤ rev := by
    simp only [RevlogIndex.data_len]
    omega
  refine ⟨?_, ?_, ?_, ?_, ?_⟩
  · intro h1 h2
    simp [RevlogIndex.parents, hnd, he, h1, h2]
  · intro h1 h2
    simp [RevlogIndex.parents, hnd, he, h1, h2]
  · intro h1 h2 h3
    simp [RevlogIndex.parents, hnd, he, h1, h2, h3]
  · intro h1 h2 h3 h4
    simp [RevlogIndex.parents, hnd, he, h1, h2, h3, h4]
  · intro l hl q hq
    simp only [RevlogIndex.parents, hnd, if_false, he] at hl
    by_cases h1 : e.p1 = -1
    · by_cases h2 : e.p2 = -1
      · simp [h1, h2] at hl
        subst hl
        simp at hq
      · simp [h1, h2] at hl
    · by_cases h2 : e.p2 = -1
      · simp only [h1, if_false, h2, if_true] at hl
        by_cases h3 : u32cast e.p1 < rev
        · simp [h3] at hl
          subst hl
          simp at hq
          omega
        · simp [h3] at hl
      · simp only [h1, if_false, h2] at hl
        by_cases h3 : u32cast e.p1 < rev ∧ u32cast e.p2 < rev
        · simp [h3] at hl
          subst hl
          simp at hq
          rcases hq with h | h <;> omega
        · simp [h3] at hl

/-- Witness for C7 on a record with both parents `-1`. -/
theorem revlog_parents_sentinels_witness :
    (RevlogIndex.mk [RevlogEntry.mk (-1) (-1)] []).parents 0 = some [] :=
  (revlog_parents_sentinels (RevlogIndex.mk [RevlogEntry.mk (-1) (-1)] []) 0
    (RevlogEntry.mk (-1) (-1)) (by rfl)).1 rfl rfl

/-- C8: inserting `k` parent lists raises `len()` by exactly `k`, and
afterwards `parents(on_disk_count + i)` returns the `i`-th entry of the
tail of inserted parent lists unchanged. -/
theorem revlog_tail_overlay (ri : RevlogIndex) (ls : List (List Nat)) :
    (ri.insertMany ls).len = ri.len + ls.length ∧
    ∀ i, (h : i < (ri.inserted ++ ls).length) →
      (ri.insertMany ls).parents (ri.data_len + i) =
        some ((ri.inserted ++ ls).get ⟨i, h⟩) := by
  obtain ⟨hd, hi⟩ := insertMany_spec ri ls
  constructor
  · simp only [RevlogIndex.len, RevlogIndex.data_len, hd, hi, List.length_append]
    omega
  · intro i h
    have hdl : (ri.insertMany ls).data_len = ri.data_len := by
      simp [RevlogIndex.data_len, hd]
    have h2 : i < ri.inserted.length + ls.length := by
      simpa using h
    simp only [RevlogIndex.parents, hdl, hi, Nat.le_add_right, if_true,
      Nat.add_sub_cancel_left]
    simp [List.getElem?_eq_some_iff, h2, List.get_eq_getElem]

/-- Witness for C8: one inserted entry on an empty revlog. -/
theorem revlog_tail_overlay_witness :
    ((RevlogIndex.mk [] []).insertMany [[]]).parents 0 = some [] :=
  (revlog_tail_overlay (RevlogIndex.mk [] []) [[]]).2 0 (by decide)

/-- C5: `DataIndex::new` fails with the header error exactly when the file
is empty, its version byte exceeds 1, or it has a config byte other than
`0x00`/`0x80`; the files `[0x02, 0x00]` and `[0x00, 0x01]` are rejected and
every two-byte file with version 0 or 1 and config `0x00`/`0x80` opens. -/
theorem dataindex_header_invalid_iff :
    (∀ file : List Nat,
      DataIndex.new file = .error .invalidHeader ↔
        (file = [] ∨ (∃ v rest, file = v :: rest ∧ 1 < v) ∨
          (∃ v c rest, file = v :: c :: rest ∧ v ≤ 1 ∧ c ≠ 0 ∧ c ≠ 128))) ∧
    DataIndex.new [2, 0] = .error .invalidHeader ∧
    DataIndex.new [0, 1] = .error .invalidHeader ∧
    (∀ v c : Nat, v ≤ 1 → (c = 0 ∨ c = 128) → (DataIndex.new [v, c]).isOk = true) := by
  have main : ∀ file : List Nat,
      DataIndex.new file = .error .invalidHeader ↔
        (file = [] ∨ (∃ v rest, file = v :: rest ∧ 1 < v) ∨
          (∃ v c rest, file = v :: c :: rest ∧ v ≤ 1 ∧ c ≠ 0 ∧ c ≠ 128)) := by
    intro file
    match file with
    | [] => simp [DataIndex.new]
    | [v] =>
      by_cases h1 : 1 < v
      · simp [DataIndex.new, DataIndexOptions.read, h1]
      · simp only [DataIndex.new, DataIndexOptions.read, h1, if_false, List.length_cons]
        constructor
        · intro h
          exact absurd h (by simp)
        · rintro (h | ⟨v', rest', hv, hlt⟩ | ⟨v', c', rest', hv, _⟩)
          · exact absurd h (by simp)
          · rw [List.cons.injEq] at hv
            omega
          · simp at hv
    | v :: c :: rest =>
      by_cases h1 : 1 < v
      · simp only [DataIndex.new, DataIndexOptions.read, h1, if_true, List.length_cons]
        constructor
        · intro _
          exact Or.inr (Or.inl ⟨v, c :: rest, rfl, h1⟩)
        · intro _
          rfl
      · by_cases hc : c = 128 ∨ c = 0
        · have hok : ∃ o, DataIndex.new (v :: c :: rest) = .ok o := by
            rcases hc with hc | hc <;>
              simp [DataIndex.new, DataIndexOptions.read, h1, hc]
          obtain ⟨o, ho⟩ := hok
          rw [ho]
          constructor
          · intro h
            exact absurd h (by simp)
          · rintro (h | ⟨v', rest', hv, hlt⟩ | ⟨v', c', rest', hv, _, hc0, hc128⟩)
            · exact absurd h (by simp)
            · rw [List.cons.injEq] at hv
              omega
            · simp only [List.cons.injEq] at hv
              rcases hc with hc | hc <;> omega
        · push_neg at hc
          simp only [DataIndex.new, DataIndexOptions.read, h1, if_false, hc.1, hc.2,
            List.length_cons]
          constructor
          · intro _
            exact Or.inr (Or.inr ⟨v, c, rest, rfl, by omega, hc.2, hc.1⟩)
          · intro _
            rfl
  refine ⟨main, ?_, ?_, ?_⟩
  · exact (main [2, 0]).mpr (Or.inr (Or.inl ⟨2, [0], rfl, by omega⟩))
  · exact (main [0, 1]).mpr (Or.inr (Or.inr ⟨0, 1, [], rfl, by omega, by omega, by omega⟩))
  · intro v c hv hc
    have h1 : ¬ 1 < v := by omega
    rcases hc with hc | hc <;> subst hc <;>
      simp [DataIndex.new, DataIndexOptions.read, h1, Except.isOk, Except.toBool]

/-- Witness for C5: a version-1 large-config header opens. -/
theorem dataindex_header_invalid_iff_witness :
    (DataIndex.new [1, 128]).isOk = true :=
  dataindex_header_invalid_iff.2.2.2 1 128 (by decide) (Or.inr rfl)

lemma indexEntry_read_of_new_ok (buf : List Nat) (hbuf : buf.length = 40)
    (dbo : DeltaBaseOffset)
    (hz : DeltaBaseOffset.new (i32val (beDecode ((buf.drop 20).take 4))) = .ok dbo) :
    IndexEntry.read buf =
      .ok (IndexEntry.new (buf.take 20) dbo
        (beDecode ((buf.drop 24).take 8)) (beDecode ((buf.drop 32).take 8))) := by
  simp only [IndexEntry.read, Bind.bind, Except.bind, get_err, readAt, Node.from_slice, hbuf,
    List.drop_zero, List.length_take]
  norm_num [hz, hbuf]

lemma indexEntry_read_of_new_err (buf : List Nat) (hbuf : buf.length = 40) (e : DErr)
    (hz : DeltaBaseOffset.new (i32val (beDecode ((buf.drop 20).take 4))) = .error e) :
    IndexEntry.read buf = .error e := by
  simp only [IndexEntry.read, Bind.bind, Except.bind, get_err, readAt, Node.from_slice, hbuf,
    List.drop_zero, List.length_take]
  norm_num [hz, hbuf]

/-- C6: the on-disk signed 32-bit `delta_base_offset` value `v` decodes to
`Offset (v as u32)` when `v ≥ 0`, `FullText` at `-1`, `Missing` at `-2`, and
decoding — directly or through `IndexEntry::read` on a 40-byte record —
fails with the invalid-delta-base-offset error exactly when `v < -2`. -/
theorem delta_base_offset_decode (v : Int) (buf : List Nat) (hbuf : buf.length = 40) :
    (0 ≤ v → DeltaBaseOffset.new v = .ok (.offset v.toNat)) ∧
    (DeltaBaseOffset.new (-1) = .ok .fullText) ∧
    (DeltaBaseOffset.new (-2) = .ok .missing) ∧
    ((∃ e, DeltaBaseOffset.new v = .error e) ↔ v < -2) ∧
    (DeltaBaseOffset.new v = .error (.invalidDeltaBaseOffset v) ↔ v < -2) ∧
    (IndexEntry.read buf =
        .error (.invalidDeltaBaseOffset (i32val (beDecode ((buf.drop 20).take 4)))) ↔
      i32val (beDecode ((buf.drop 20).take 4)) < -2) := by
  have hnew_err : ∀ z : Int, z < -2 →
      DeltaBaseOffset.new z = .error (.invalidDeltaBaseOffset z) := by
    intro z hz
    simp [DeltaBaseOffset.new, show ¬ (0 : Int) ≤ z by omega, show z ≠ -1 by omega,
      show z ≠ -2 by omega]
  have hnew_ok : ∀ z : Int, -2 ≤ z → ∃ d, DeltaBaseOffset.new z = .ok d := by
    intro z hz
    by_cases h0 : 0 ≤ z
    · exact ⟨.offset z.toNat, by simp [DeltaBaseOffset.new, h0]⟩
    · by_cases h1 : z = -1
      · exact ⟨.fullText, by simp [DeltaBaseOffset.new, h0, h1]⟩
      · exact ⟨.missing, by simp [DeltaBaseOffset.new, h0, h1, show z = -2 by omega]⟩
  refine ⟨?_, by simp [DeltaBaseOffset.new], ?_, ?_, ?_, ?_⟩
  · intro h0
    simp [DeltaBaseOffset.new, h0]
  · norm_num [DeltaBaseOffset.new]
  · constructor
    · rintro ⟨e, he⟩
      by_cases hz : v < -2
      · exact hz
      · obtain ⟨d, hd⟩ := hnew_ok v (by omega)
        rw [hd] at he
        exact absurd he (by simp)
    · intro hz
      exact ⟨_, hnew_err v hz⟩
  · constructor
    · intro he
      by_cases hz : v < -2
      · exact hz
      · obtain ⟨d, hd⟩ := hnew_ok v (by omega)
        rw [hd] at he
        exact absurd he (by simp)
    · intro hz
      exact hnew_err v hz
  · constructor
    · intro he
      by_cases hz : i32val (beDecode ((buf.drop 20).take 4)) < -2
      · exact hz
      · obtain ⟨d, hd⟩ :=
          hnew_ok (i32val (beDecode ((buf.drop 20).take 4))) (by omega)
        rw [indexEntry_read_of_new_ok buf hbuf d hd] at he
        exact absurd he (by simp)
    · intro hz
      exact indexEntry_read_of_new_err buf hbuf _ (hnew_err _ hz)

/-- Witness for C6 on an all-zero 40-byte record (`v = 0`). -/
theorem delta_base_offset_decode_witness :
    (List.replicate 40 0).length = 40 ∧
      (0 ≤ (0 : Int) → DeltaBaseOffset.new 0 = .ok (.offset (0 : Int).toNat)) :=
  ⟨by decide, (delta_base_offset_decode 0 (List.replicate 40 0) (by decide)).1⟩

/-! ## Reachability and phase-propagation lemmas -/

lemma ReachesA.mono {pf : Nat → List Nat} {len m n a b : Nat} (hmn : m ≤ n)
    (h : ReachesA pf len n a b) : ReachesA pf len m a b := by
  induction h with
  | refl => exact .refl _
  | step _ hc hlen hp ih => exact .step ih (le_trans hmn hc) hlen hp

lemma ReachesA.eq_of_len {pf : Nat → List Nat} {len a b : Nat}
    (h : ReachesA pf len len a b) : a = b := by
  induction h with
  | refl => rfl
  | step _ hc hlen _ _ => exact absurd hlen (by omega)

lemma reachesA_zero_iff {pf : Nat → List Nat} {len a b : Nat} :
    ReachesA pf len 0 a b ↔ Reaches pf len a b := by
  constructor
  · intro h
    induction h with
    | refl => exact .refl _
    | step _ _ hlen hp ih => exact .step ih hlen hp
  · intro h
    induction h with
    | refl => exact .refl _
    | step _ hlen hp ih => exact .step ih (Nat.zero_le _) hlen hp

lemma Reaches.toA {pf : Nat → List Nat} {len : Nat}
    (wf : ∀ r, r < len → ∀ p ∈ pf r, p < r) {a b : Nat}
    (h : Reaches pf len a b) : ReachesA pf len (b + 1) a b := by
  induction h with
  | refl => exact .refl _
  | @step c p _ hlen hp ih =>
    have hpc : p < c := wf c hlen p hp
    exact .step (ReachesA.mono (by omega) ih) (by omega) hlen hp

lemma reachesA_iff_reaches {pf : Nat → List Nat} {len : Nat}
    (wf : ∀ r, r < len → ∀ p ∈ pf r, p < r) {n a b : Nat} (hn : n ≤ b + 1) :
    ReachesA pf len n a b ↔ Reaches pf len a b := by
  constructor
  · intro h
    exact reachesA_zero_iff.mp (ReachesA.mono (Nat.zero_le n) h)
  · intro h
    exact ReachesA.mono hn (Reaches.toA wf h)

lemma reachesA_succ_iff {pf : Nat → List Nat} {len : Nat}
    (wf : ∀ r, r < len → ∀ p ∈ pf r, p < r) {n a b : Nat} (hn : n < len) :
    ReachesA pf len n a b ↔
      (ReachesA pf len (n + 1) a b ∨ (b ∈ pf n ∧ ReachesA pf len (n + 1) a n)) := by
  constructor
  · intro h
    induction h with
    | refl => exact Or.inl (.refl _)
    | @step c p _ hc hlen hp ih =>
      rcases ih with ih | ⟨hbc, _⟩
      · by_cases hcn : c = n
        · subst hcn
          exact Or.inr ⟨hp, ih⟩
        · exact Or.inl (.step ih (by omega) hlen hp)
      · exact absurd (wf n hn c hbc) (by omega)
  · rintro (h | ⟨hb, hn'⟩)
    · exact ReachesA.mono (by omega) h
    · exact .step (ReachesA.mono (by omega) hn') (le_refl n) hn hb

lemma Reaches.le {pf : Nat → List Nat} {len : Nat}
    (wf : ∀ r, r < len → ∀ p ∈ pf r, p < r) {a b : Nat}
    (h : Reaches pf len a b) : b ≤ a := by
  induction h with
  | refl => exact le_refl _
  | @step c p _ hlen hp ih =>
    have := wf c hlen p hp
    omega

lemma Phase.max_eq_public_iff (a b : Phase) :
    a.max b = .public ↔ (a = .public ∨ b = .public) := by
  cases a <;> cases b <;> decide

lemma Phase.max_eq_draft_iff (a b : Phase) :
    a.max b = .draft ↔ ((a = .draft ∨ b = .draft) ∧ a ≠ .public ∧ b ≠ .public) := by
  cases a <;> cases b <;> decide

lemma Phase.max_idem_right (a b : Phase) : (a.max b).max b = a.max b := by
  cases a <;> cases b <;> decide

lemma initFold_oob (heads : List Nat) (p : Phase) :
    ∀ phases : List Phase, (∃ r ∈ heads, phases.length ≤ r) →
      initFold phases heads p = none := by
  induction heads with
  | nil =>
    intro phases h
    simp at h
  | cons r rs ih =>
    intro phases h
    obtain ⟨r', hr', hge⟩ := h
    by_cases hrl : r < phases.length
    · have step1 : setPhase phases r p = some (phases.set r p) := by
        simp [setPhase, hrl]
      rcases List.mem_cons.mp hr' with rfl | hr'
      · omega
      · simp only [initFold, List.foldlM_cons, step1, Option.bind_eq_bind, Option.some_bind]
        exact ih (phases.set r p) ⟨r', hr', by simpa using hge⟩
    · simp only [initFold, List.foldlM_cons, setPhase, hrl, if_false,
        Option.bind_eq_bind, Option.none_bind]

lemma initFold_ok (heads : List Nat) (p : Phase) :
    ∀ phases : List Phase, (∀ r ∈ heads, r < phases.length) →
      ∃ l, initFold phases heads p = some l ∧ l.length = phases.length ∧
        ∀ x, x < phases.length →
          l.getD x .unspecified =
            if x ∈ heads then p else phases.getD x .unspecified := by
  induction heads with
  | nil =>
    intro phases _
    exact ⟨phases, by simp [initFold], rfl, by simp⟩
  | cons r rs ih =>
    intro phases h
    have hrl : r < phases.length := h r (List.mem_cons_self r rs)
    obtain ⟨l, hl, hlen, hchar⟩ := ih (phases.set r p)
      (by simpa using fun q hq => h q (List.mem_cons_of_mem r hq))
    refine ⟨l, ?_, by simpa using hlen, ?_⟩
    · simp only [initFold, List.foldlM_cons, setPhase, hrl, if_true,
        Option.bind_eq_bind, Option.some_bind]
      exact hl
    · intro x hx
      have hset : (phases.set r p).getD x .unspecified =
          if x = r then p else phases.getD x .unspecified := by
        by_cases hxr : x = r
        · subst hxr
          simp [List.getD_eq_getElem?_getD, List.getElem?_set_self, hx]
        · simp [List.getD_eq_getElem?_getD, List.getElem?_set_ne (by omega : r ≠ x), hxr]
      have := hchar x (by simpa using hx)
      rw [this, hset]
      by_cases h1 : x ∈ rs <;> by_cases h2 : x = r <;>
        simp [h1, h2, List.mem_cons]

lemma propagate_ok (ph : Phase) (ps : List Nat) :
    ∀ phases : List Phase, (∀ q ∈ ps, q < phases.length) →
      ∃ l, propagate phases ph ps = some l ∧ l.length = phases.length ∧
        ∀ x, x < phases.length →
          l.getD x .unspecified =
            if x ∈ ps then (phases.getD x .unspecified).max ph
            else phases.getD x .unspecified := by
  induction ps with
  | nil =>
    intro phases _
    exact ⟨phases, by simp [propagate], rfl, by simp⟩
  | cons q qs ih =>
    intro phases h
    have hql : q < phases.length := h q (List.mem_cons_self q qs)
    have hread : phases[q]? = some (phases.getD q .unspecified) := by
      rw [List.getD_eq_getElem?_getD, List.getElem?_eq_getElem hql]
      simp
    obtain ⟨l, hl, hlen, hchar⟩ := ih (phases.set q ((phases.getD q .unspecified).max ph))
      (by simpa using fun q' hq' => h q' (List.mem_cons_of_mem q hq'))
    refine ⟨l, ?_, by simpa using hlen, ?_⟩
    · simp only [propagate, List.foldlM_cons, hread, Option.bind_eq_bind, Option.some_bind]
      exact hl
    · intro x hx
      have hset : (phases.set q ((phases.getD q .unspecified).max ph)).getD x .unspecified =
          if x = q then (phases.getD q .unspecified).max ph
          else phases.getD x .unspecified := by
        by_cases hxq : x = q
        · subst hxq
          simp [List.getD_eq_getElem?_getD, List.getElem?_set_self, hx]
        · simp [List.getD_eq_getElem?_getD, List.getElem?_set_ne (by omega : q ≠ x), hxq]
      have := hchar x (by simpa using hx)
      rw [this, hset]
      by_cases h1 : x ∈ qs <;> by_cases h2 : x = q <;>
        simp [h1, h2, List.mem_cons, Phase.max_idem_right]

lemma phase_max_public_char {v p : Phase} {A B : Prop}
    (hv : v = .public ↔ A) (hp : p = .public ↔ B) :
    v.max p = .public ↔ (A ∨ B) := by
  rw [Phase.max_eq_public_iff, hv, hp]

lemma phase_max_draft_char {v p : Phase} {A B C D : Prop}
    (hvP : v = .public ↔ A) (hpP : p = .public ↔ B)
    (hvD : v = .draft ↔ (C ∧ ¬ A)) (hpD : p = .draft ↔ (D ∧ ¬ B)) :
    v.max p = .draft ↔ ((C ∨ D) ∧ ¬ (A ∨ B)) := by
  rw [Phase.max_eq_draft_iff, hvD, hpD, Ne, Ne, hvP, hpP]
  tauto

lemma parents_eq_pf (ri : RevlogIndex) (r : Nat) (h : (ri.parents r).isSome = true) :
    ri.parents r = some (ri.pf r) := by
  unfold RevlogIndex.pf
  cases hp : ri.parents r with
  | none => rw [hp] at h; simp at h
  | some l => simp

lemma phaseLoop_invariant (ri : RevlogIndex) (Pl Dl : List Nat)
    (HwfS : ∀ r, r < ri.len → (ri.parents r).isSome = true)
    (HwfP : ∀ r, r < ri.len → ∀ p ∈ ri.pf r, p < r) :
    ∀ n, n ≤ ri.len → ∀ phases pub dra,
      phases.length = ri.len →
      (∀ x, x < ri.len →
        ((phases.getD x .unspecified = .public ↔
            (∃ h, h ∈ Pl ∧ ReachesA ri.pf ri.len n h x)) ∧
         (phases.getD x .unspecified = .draft ↔
            ((∃ h, h ∈ Dl ∧ ReachesA ri.pf ri.len n h x) ∧
              ¬ (∃ h, h ∈ Pl ∧ ReachesA ri.pf ri.len n h x))))) →
      (∀ x, x ∈ pub ↔ (n ≤ x ∧ x < ri.len ∧ (∃ h, h ∈ Pl ∧ Reaches ri.pf ri.len h x))) →
      (∀ x, x ∈ dra ↔ (n ≤ x ∧ x < ri.len ∧ (∃ h, h ∈ Dl ∧ Reaches ri.pf ri.len h x) ∧
          ¬ (∃ h, h ∈ Pl ∧ Reaches ri.pf ri.len h x))) →
      ∃ phases2 pub2 dra2,
        phaseLoop ri n (phases, pub, dra) = some (phases2, pub2, dra2) ∧
        (∀ x, x ∈ pub2 ↔ (x < ri.len ∧ (∃ h, h ∈ Pl ∧ Reaches ri.pf ri.len h x))) ∧
        (∀ x, x ∈ dra2 ↔ (x < ri.len ∧ (∃ h, h ∈ Dl ∧ Reaches ri.pf ri.len h x) ∧
          ¬ (∃ h, h ∈ Pl ∧ Reaches ri.pf ri.len h x))) := by
  have hcong : ∀ (H : List Nat) (m x : Nat), m ≤ x + 1 →
      ((∃ h, h ∈ H ∧ ReachesA ri.pf ri.len m h x) ↔
        (∃ h, h ∈ H ∧ Reaches ri.pf ri.len h x)) := by
    intro H m x hm
    constructor <;> rintro ⟨h, h1, h2⟩
    · exact ⟨h, h1, (reachesA_iff_reaches HwfP hm).mp h2⟩
    · exact ⟨h, h1, (reachesA_iff_reaches HwfP hm).mpr h2⟩
  intro n
  induction n with
  | zero =>
    intro _ phases pub dra _ _ Hpub Hdra
    refine ⟨phases, pub, dra, rfl, ?_, ?_⟩
    · intro x
      rw [Hpub x]
      constructor
      · rintro ⟨_, h2, h3⟩
        exact ⟨h2, h3⟩
      · rintro ⟨h2, h3⟩
        exact ⟨Nat.zero_le _, h2, h3⟩
    · intro x
      rw [Hdra x]
      constructor
      · rintro ⟨_, h2, h3⟩
        exact ⟨h2, h3⟩
      · rintro ⟨h2, h3⟩
        exact ⟨Nat.zero_le _, h2, h3⟩
  | succ n ih =>
    intro hn phases pub dra Hlen Hph Hpub Hdra
    have hnlen : n < ri.len := hn
    have hnphl : n < phases.length := by omega
    have hread : phases[n]? = some (phases.getD n .unspecified) := by
      rw [List.getD_eq_getElem?_getD, List.getElem?_eq_getElem hnphl]
      simp
    have hpar : ri.parents n = some (ri.pf n) := parents_eq_pf ri n (HwfS n hnlen)
    have hps_lt : ∀ q ∈ ri.pf n, q < phases.length := by
      intro q hq
      have := HwfP n hnlen q hq
      omega
    obtain ⟨phases2, hprop, hlen2, hchar2⟩ :=
      propagate_ok (phases.getD n .unspecified) (ri.pf n) phases hps_lt
    have hdec : ∀ (H : List Nat) (x : Nat),
        (∃ h, h ∈ H ∧ ReachesA ri.pf ri.len n h x) ↔
          ((∃ h, h ∈ H ∧ ReachesA ri.pf ri.len (n + 1) h x) ∨
            (x ∈ ri.pf n ∧ ∃ h, h ∈ H ∧ ReachesA ri.pf ri.len (n + 1) h n)) := by
      intro H x
      constructor
      · rintro ⟨h, h1, h2⟩
        rcases (reachesA_succ_iff HwfP hnlen).mp h2 with h3 | ⟨h3, h4⟩
        · exact Or.inl ⟨h, h1, h3⟩
        · exact Or.inr ⟨h3, h, h1, h4⟩
      · rintro (⟨h, h1, h2⟩ | ⟨hx, h, h1, h2⟩)
        · exact ⟨h, h1, (reachesA_succ_iff HwfP hnlen).mpr (Or.inl h2)⟩
        · exact ⟨h, h1, (reachesA_succ_iff HwfP hnlen).mpr (Or.inr ⟨hx, h2⟩)⟩
    obtain ⟨hnP, hnD⟩ := Hph n hnlen
    have hstep : phaseLoop ri (n + 1) (phases, pub, dra) =
        phaseLoop ri n (phases2,
          (if phases.getD n .unspecified = Phase.public then pub ++ [n] else pub),
          (if phases.getD n .unspecified = Phase.draft then dra ++ [n] else dra)) := by
      simp only [phaseLoop, hread, Option.bind_eq_bind, Option.some_bind, hpar, hprop]
    rw [hstep]
    apply ih (by omega) phases2 _ _ (by omega)
    · intro x hx
      have hx' : x < phases.length := by omega
      obtain ⟨hvP, hvD⟩ := Hph x hx
      rw [hchar2 x hx']
      by_cases hmem : x ∈ ri.pf n
      · simp only [hmem, if_true]
        constructor
        · rw [hdec Pl x]
          simp only [hmem, true_and]
          exact phase_max_public_char hvP hnP
        · rw [hdec Dl x, hdec Pl x]
          simp only [hmem, true_and]
          exact phase_max_draft_char hvP hnP hvD hnD
      · simp only [hmem, if_false]
        constructor
        · rw [hdec Pl x]
          simp only [hmem, false_and, or_false]
          exact hvP
        · rw [hdec Dl x, hdec Pl x]
          simp only [hmem, false_and, or_false]
          exact hvD
    · intro x
      by_cases hpp : phases.getD n .unspecified = Phase.public
      · simp only [hpp, if_true, List.mem_append, List.mem_singleton, Hpub x]
        constructor
        · rintro (⟨h1, h2, h3⟩ | rfl)
          · exact ⟨by omega, h2, h3⟩
          · exact ⟨le_refl _, hnlen, (hcong Pl (x + 1) x (le_refl _)).mp (hnP.mp hpp)⟩
        · rintro ⟨h1, h2, h3⟩
          by_cases hxn : x = n
          · exact Or.inr hxn
          · exact Or.inl ⟨by omega, h2, h3⟩
      · simp only [hpp, if_false, Hpub x]
        constructor
        · rintro ⟨h1, h2, h3⟩
          exact ⟨by omega, h2, h3⟩
        · rintro ⟨h1, h2, h3⟩
          by_cases hxn : x = n
          · subst hxn
            exact absurd (hnP.mpr ((hcong Pl (x + 1) x (le_refl _)).mpr h3)) hpp
          · exact ⟨by omega, h2, h3⟩
    · intro x
      by_cases hpd : phases.getD n .unspecified = Phase.draft
      · simp only [hpd, if_true, List.mem_append, List.mem_singleton, Hdra x]
        constructor
        · rintro (⟨h1, h2, h3⟩ | rfl)
          · exact ⟨by omega, h2, h3⟩
          · obtain ⟨hdn, hpn⟩ := hnD.mp hpd
            refine ⟨le_refl _, hnlen, (hcong Dl (x + 1) x (le_refl _)).mp hdn, ?_⟩
            intro hc
            exact hpn ((hcong Pl (x + 1) x (le_refl _)).mpr hc)
        · rintro ⟨h1, h2, h3, h4⟩
          by_cases hxn : x = n
          · exact Or.inr hxn
          · exact Or.inl ⟨by omega, h2, h3, h4⟩
      · simp only [hpd, if_false, Hdra x]
        constructor
        · rintro ⟨h1, h2, h3⟩
          exact ⟨by omega, h2, h3⟩
        · rintro ⟨h1, h2, h3, h4⟩
          by_cases hxn : x = n
          · subst hxn
            refine absurd (hnD.mpr ⟨(hcong Dl (x + 1) x (le_refl _)).mpr h3, ?_⟩) hpd
            intro hc
            exact h4 ((hcong Pl (x + 1) x (le_refl _)).mp hc)
          · exact ⟨by omega, h2, h3, h4⟩

lemma reachesA_len_exists_iff (pf : Nat → List Nat) (len : Nat) (H : List Nat) (x : Nat) :
    (∃ h, h ∈ H ∧ ReachesA pf len len h x) ↔ x ∈ H := by
  constructor
  · rintro ⟨h, h1, h2⟩
    rwa [ReachesA.eq_of_len h2] at h1
  · intro hx
    exact ⟨x, hx, .refl x⟩

lemma phasesets_spec (ri : RevlogIndex) (P D : List Nat)
    (HwfS : ∀ r, r < ri.len → (ri.parents r).isSome = true)
    (HwfP : ∀ r, r < ri.len → ∀ p ∈ ri.pf r, p < r)
    (HP : ∀ h ∈ P, h < ri.len) (HD : ∀ h ∈ D, h < ri.len) :
    ∃ pub dra, ri.phasesets P D = some (pub, dra) ∧
      (∀ x, x ∈ pub ↔ (x < ri.len ∧ ∃ h, h ∈ P ∧ Reaches ri.pf ri.len h x)) ∧
      (∀ x, x ∈ dra ↔ (x < ri.len ∧ (∃ h, h ∈ D ∧ Reaches ri.pf ri.len h x) ∧
        ¬ (∃ h, h ∈ P ∧ Reaches ri.pf ri.len h x))) := by
  have hrep : (List.replicate ri.len Phase.unspecified).length = ri.len := by simp
  obtain ⟨l1, hl1, hlen1, hchar1⟩ :=
    initFold_ok D Phase.draft (List.replicate ri.len Phase.unspecified)
      (by intro r hr; rw [hrep]; exact HD r hr)
  obtain ⟨l2, hl2, hlen2, hchar2⟩ :=
    initFold_ok P Phase.public l1
      (by intro r hr; rw [hlen1, hrep]; exact HP r hr)
  have hlen2' : l2.length = ri.len := by rw [hlen2, hlen1, hrep]
  have hbase : ∀ x, x < ri.len →
      ((l2.getD x .unspecified = .public ↔
          (∃ h, h ∈ P ∧ ReachesA ri.pf ri.len ri.len h x)) ∧
       (l2.getD x .unspecified = .draft ↔
          ((∃ h, h ∈ D ∧ ReachesA ri.pf ri.len ri.len h x) ∧
            ¬ (∃ h, h ∈ P ∧ ReachesA ri.pf ri.len ri.len h x)))) := by
    intro x hx
    rw [reachesA_len_exists_iff, reachesA_len_exists_iff]
    have h2 := hchar2 x (by rw [hlen1, hrep]; exact hx)
    have h1 := hchar1 x (by rw [hrep]; exact hx)
    rw [h2, h1]
    by_cases hxP : x ∈ P
    · simp [hxP]
    · by_cases hxD : x ∈ D
      · simp [hxP, hxD]
      · simp [hxP, hxD, List.getD_eq_getElem?_getD, List.getElem?_replicate, hx]
  obtain ⟨phases2, pub2, dra2, hloop, hpub2, hdra2⟩ :=
    phaseLoop_invariant ri P D HwfS HwfP ri.len (le_refl _) l2 [] [] hlen2' hbase
      (by intro x; simp; omega) (by intro x; simp; omega)
  refine ⟨pub2, dra2, ?_, hpub2, hdra2⟩
  simp only [RevlogIndex.phasesets, hl1, hl2, hloop, Option.bind_eq_bind, Option.some_bind]

/-- C3: after `phase_sets(P, D)`, every ancestor (inclusive) of a revision
in `P` is in the public set; every ancestor of a revision in `D` that is not
an ancestor of a revision in `P` is in the draft set; no revision is in
both; revisions reaching neither head set are in neither; and a revision in
both `P` and `D` is classified public (the public init loop runs after the
draft one).  Hypotheses: heads are in range and the stored parent lists are
in range and point strictly downward (otherwise the source panics). -/
theorem revlog_phase_sets_correct (ri : RevlogIndex) (P D : List Nat)
    (HwfS : ∀ r, r < ri.len → (ri.parents r).isSome = true)
    (HwfP : ∀ r, r < ri.len → ∀ p ∈ ri.pf r, p < r)
    (HP : ∀ h ∈ P, h < ri.len) (HD : ∀ h ∈ D, h < ri.len) :
    ∃ pub dra, ri.phasesets P D = some (pub, dra) ∧
      (∀ h x, h ∈ P → Reaches ri.pf ri.len h x → x ∈ pub) ∧
      (∀ h x, h ∈ D → Reaches ri.pf ri.len h x →
        ¬ (∃ g, g ∈ P ∧ Reaches ri.pf ri.len g x) → x ∈ dra) ∧
      (∀ x, ¬ (x ∈ pub ∧ x ∈ dra)) ∧
      (∀ x, ¬ (∃ g, g ∈ P ∧ Reaches ri.pf ri.len g x) →
        ¬ (∃ g, g ∈ D ∧ Reaches ri.pf ri.len g x) → x ∉ pub ∧ x ∉ dra) ∧
      (∀ h, h ∈ P → h ∈ D → h ∈ pub ∧ h ∉ dra) := by
  obtain ⟨pub, dra, heq, hpub, hdra⟩ := phasesets_spec ri P D HwfS HwfP HP HD
  refine ⟨pub, dra, heq, ?_, ?_, ?_, ?_, ?_⟩
  · intro h x hh hr
    have hx : x < ri.len := lt_of_le_of_lt (Reaches.le HwfP hr) (HP h hh)
    exact (hpub x).mpr ⟨hx, h, hh, hr⟩
  · intro h x hh hr hnp
    have hx : x < ri.len := lt_of_le_of_lt (Reaches.le HwfP hr) (HD h hh)
    exact (hdra x).mpr ⟨hx, ⟨h, hh, hr⟩, hnp⟩
  · rintro x ⟨h1, h2⟩
    obtain ⟨_, hfp⟩ := (hpub x).mp h1
    obtain ⟨_, _, hnfp⟩ := (hdra x).mp h2
    exact hnfp hfp
  · intro x hnp hnd
    constructor
    · intro hx
      exact hnp ((hpub x).mp hx).2
    · intro hx
      exact hnd ((hdra x).mp hx).2.1
  · intro h hP' hD'
    constructor
    · exact (hpub h).mpr ⟨HP h hP', h, hP', .refl h⟩
    · intro hx
      exact ((hdra h).mp hx).2.2 ⟨h, hP', .refl h⟩

/-- Witness for C3: the linear chain `0 ← 1 ← 2 ← 3` with `P = [1]`,
`D = [3]` (spec scenario S4). -/
theorem revlog_phase_sets_correct_witness :
    ∃ pub dra,
      (RevlogIndex.mk [] [[], [0], [1], [2]]).phasesets [1] [3] = some (pub, dra) ∧
      (∀ h x, h ∈ [1] →
        Reaches (RevlogIndex.mk [] [[], [0], [1], [2]]).pf 4 h x → x ∈ pub) ∧
      (∀ h x, h ∈ [3] →
        Reaches (RevlogIndex.mk [] [[], [0], [1], [2]]).pf 4 h x →
        ¬ (∃ g, g ∈ [1] ∧ Reaches (RevlogIndex.mk [] [[], [0], [1], [2]]).pf 4 g x) →
        x ∈ dra) ∧
      (∀ x, ¬ (x ∈ pub ∧ x ∈ dra)) ∧
      (∀ x, ¬ (∃ g, g ∈ [1] ∧ Reaches (RevlogIndex.mk [] [[], [0], [1], [2]]).pf 4 g x) →
        ¬ (∃ g, g ∈ [3] ∧ Reaches (RevlogIndex.mk [] [[], [0], [1], [2]]).pf 4 g x) →
        x ∉ pub ∧ x ∉ dra) ∧
      (∀ h, h ∈ [1] → h ∈ [3] → h ∈ pub ∧ h ∉ dra) :=
  revlog_phase_sets_correct (RevlogIndex.mk [] [[], [0], [1], [2]]) [1] [3]
    (by decide) (by decide) (by decide) (by decide)

/-- C9: `parents` panics (modelled `none`) for any revision at or past
`len()`; every revision in `[data_len, len)` hits an in-range tail index;
`phasesets` panics when any draft or public head is at or past `len()`; and
under the in-range preconditions every access is in range, so `phasesets`
returns a value. -/
theorem revlog_index_bounds_safety (ri : RevlogIndex) (P D : List Nat)
    (HwfS : ∀ r, r < ri.len → (ri.parents r).isSome = true)
    (HwfP : ∀ r, r < ri.len → ∀ p ∈ ri.pf r, p < r)
    (HP : ∀ h ∈ P, h < ri.len) (HD : ∀ h ∈ D, h < ri.len) :
    (∀ rev, ri.len ≤ rev → ri.parents rev = none) ∧
    (∀ rev, ri.data_len ≤ rev → rev < ri.len → (ri.parents rev).isSome = true) ∧
    (∀ P' D' h, h ∈ D' → ri.len ≤ h → ri.phasesets P' D' = none) ∧
    (∀ P' D' h, h ∈ P' → (∀ g ∈ D', g < ri.len) → ri.len ≤ h →
      ri.phasesets P' D' = none) ∧
    (ri.phasesets P D).isSome = true := by
  have hlen : ri.len = ri.data_len + ri.inserted.length := rfl
  refine ⟨?_, ?_, ?_, ?_, ?_⟩
  · intro rev hrev
    have h1 : ri.data_len ≤ rev := by omega
    have h2 : ri.inserted.length ≤ rev - ri.data_len := by omega
    simp [RevlogIndex.parents, h1, List.getElem?_eq_none h2]
  · intro rev h1 h2
    have h3 : rev - ri.data_len < ri.inserted.length := by omega
    simp [RevlogIndex.parents, h1, List.getElem?_eq_getElem h3]
  · intro P' D' h hmem hge
    have hoob : initFold (List.replicate ri.len Phase.unspecified) D' Phase.draft = none :=
      initFold_oob D' Phase.draft _ ⟨h, hmem, by simpa using hge⟩
    simp [RevlogIndex.phasesets, hoob]
  · intro P' D' h hmem hD' hge
    obtain ⟨l1, hl1, hlen1, _⟩ :=
      initFold_ok D' Phase.draft (List.replicate ri.len Phase.unspecified)
        (by intro r hr; simpa using hD' r hr)
    have hoob : initFold l1 P' Phase.public = none :=
      initFold_oob P' Phase.public l1 ⟨h, hmem, by simp [hlen1]; omega⟩
    simp [RevlogIndex.phasesets, hl1, hoob]
  · obtain ⟨pub, dra, heq, _, _⟩ := phasesets_spec ri P D HwfS HwfP HP HD
    simp [heq]

/-- Witness for C9 on the S4 chain. -/
theorem revlog_index_bounds_safety_witness :
    (RevlogIndex.mk [] [[], [0], [1], [2]]).parents 4 = none ∧
      ((RevlogIndex.mk [] [[], [0], [1], [2]]).phasesets [1] [3]).isSome = true :=
  ⟨(revlog_index_bounds_safety (RevlogIndex.mk [] [[], [0], [1], [2]]) [1] [3]
      (by decide) (by decide) (by decide) (by decide)).1 4 (by decide),
    (revlog_index_bounds_safety (RevlogIndex.mk [] [[], [0], [1], [2]]) [1] [3]
      (by decide) (by decide) (by decide) (by decide)).2.2.2.2⟩

/-! ## Byte-codec lemmas -/

lemma be_length (w v : Nat) : (be w v).length = w := by
  induction w generalizing v with
  | zero => rfl
  | succ w ih => simp [be, ih]

lemma beDecode_foldl (l : List Nat) : ∀ acc : Nat,
    l.foldl (fun a b => a * 256 + b) acc =
      acc * 256 ^ l.length + l.foldl (fun a b => a * 256 + b) 0 := by
  induction l with
  | nil => intro acc; simp
  | cons x xs ih =>
    intro acc
    rw [List.foldl_cons, ih (acc * 256 + x), List.foldl_cons, ih (0 * 256 + x)]
    simp only [List.length_cons]
    ring

lemma beDecode_cons (x : Nat) (xs : List Nat) :
    beDecode (x :: xs) = x * 256 ^ xs.length + beDecode xs := by
  simp only [beDecode, List.foldl_cons]
  rw [beDecode_foldl xs (0 * 256 + x)]
  norm_num

lemma beDecode_be (w v : Nat) : beDecode (be w v) = v % 256 ^ w := by
  induction w generalizing v with
  | zero => simp [be, beDecode, Nat.mod_one]
  | succ w ih =>
    rw [be, beDecode_cons, be_length, ih, Nat.mod_pow_succ]
    ring

lemma beDecode_be_of_lt (w v : Nat) (h : v < 256 ^ w) : beDecode (be w v) = v := by
  rw [beDecode_be, Nat.mod_eq_of_lt h]

lemma u32cast_lt (z : Int) : u32cast z < 2 ^ 32 := by
  unfold u32cast
  omega

lemma i32val_u32cast (z : Int) (h1 : -(2 ^ 31) ≤ z) (h2 : z < 2 ^ 31) :
    i32val (u32cast z) = z := by
  unfold i32val u32cast
  split <;> omega

lemma u32cast_of_lt (n : Nat) (h : n < 2 ^ 32) : u32cast (n : Int) = n := by
  unfold u32cast
  omega

/-! ## Byte-comparison lemmas -/

lemma compareBytes_eq_iff (a b : List Nat) : compareBytes a b = .eq ↔ a = b := by
  induction a generalizing b with
  | nil => cases b <;> simp [compareBytes]
  | cons x xs ih =>
    cases b with
    | nil => simp [compareBytes]
    | cons y ys =>
      by_cases h1 : x < y
      · simp [compareBytes, h1]
        omega
      · by_cases h2 : y < x
        · simp [compareBytes, h1, h2]
          omega
        · have hxy : x = y := by omega
          subst hxy
          simp [compareBytes, h1, h2, ih]

lemma compareBytes_gt_iff (a b : List Nat) :
    compareBytes a b = .gt ↔ compareBytes b a = .lt := by
  induction a generalizing b with
  | nil => cases b <;> simp [compareBytes]
  | cons x xs ih =>
    cases b with
    | nil => simp [compareBytes]
    | cons y ys =>
      by_cases h1 : x < y
      · simp [compareBytes, h1, show ¬ y < x by omega, show y ≠ x by omega]
      · by_cases h2 : y < x
        · simp [compareBytes, h1, h2]
        · have hxy : x = y := by omega
          subst hxy
          simp [compareBytes, h1, h2, ih]

lemma compareBytes_lt_trans {a b c : List Nat} (h1 : compareBytes a b = .lt)
    (h2 : compareBytes b c = .lt) : compareBytes a c = .lt := by
  induction a generalizing b c with
  | nil =>
    cases c with
    | nil =>
      cases b <;> simp_all [compareBytes]
    | cons z zs => simp [compareBytes]
  | cons x xs ih =>
    cases b with
    | nil => simp [compareBytes] at h1
    | cons y ys =>
      cases c with
      | nil => simp [compareBytes] at h2
      | cons z zs =>
        simp only [compareBytes] at h1 h2 ⊢
        by_cases hxy : x < y
        · have hxz : x < z := by
            by_cases hyz : y < z
            · omega
            · by_cases hzy : z < y
              · simp [hyz, hzy] at h2
              · omega
          simp [hxz]
        · by_cases hyx : y < x
          · simp [hxy, hyx] at h1
          · have hxy' : x = y := by omega
            subst hxy'
            by_cases hxz : x < z
            · simp [hxz]
            · by_cases hzx : z < x
              · simp [hxz, hzx] at h2
              · have hxz' : x = z := by omega
                subst hxz'
                simp only [lt_irrefl, if_false] at h1 h2 ⊢
                exact ih h1 h2

/-! ## Uniform-block lemmas -/

lemma flatMap_length_const {α : Type} (f : α → List Nat) (k : Nat) (l : List α)
    (h : ∀ x ∈ l, (f x).length = k) : (l.flatMap f).length = k * l.length := by
  induction l with
  | nil => simp
  | cons x xs ih =>
    simp only [List.flatMap_cons, List.length_append, List.length_cons,
      h x (List.mem_cons_self x xs)]
    rw [ih (fun y hy => h y (List.mem_cons_of_mem x hy))]
    ring

lemma flatMap_drop_blocks {α : Type} (f : α → List Nat) (k : Nat) :
    ∀ (i : Nat) (l : List α), (∀ x ∈ l, (f x).length = k) →
      (l.flatMap f).drop (k * i) = (l.drop i).flatMap f := by
  intro i
  induction i with
  | zero => simp
  | succ i ih =>
    intro l h
    cases l with
    | nil => simp
    | cons x xs =>
      have hx : (f x).length = k := h x (List.mem_cons_self x xs)
      have : k * (i + 1) = k + k * i := by ring
      rw [this, List.flatMap_cons, ← List.drop_drop]
      rw [show (f x ++ xs.flatMap f).drop k = xs.flatMap f by
        rw [← hx, List.drop_left]]
      rw [ih xs (fun y hy => h y (List.mem_cons_of_mem x hy))]
      simp

lemma flatMap_take_blocks {α : Type} (f : α → List Nat) (k : Nat) :
    ∀ (i : Nat) (l : List α), (∀ x ∈ l, (f x).length = k) →
      (l.flatMap f).take (k * i) = (l.take i).flatMap f := by
  intro i
  induction i with
  | zero => simp
  | succ i ih =>
    intro l h
    cases l with
    | nil => simp
    | cons x xs =>
      have hx : (f x).length = k := h x (List.mem_cons_self x xs)
      have : k * (i + 1) = (f x).length + k * i := by rw [hx]; ring
      rw [this, List.flatMap_cons, List.take_append]
      rw [ih xs (fun y hy => h y (List.mem_cons_of_mem x hy))]
      simp

lemma flatMap_block_get {α : Type} (f : α → List Nat) (k : Nat) (l : List α)
    (h : ∀ x ∈ l, (f x).length = k) (i : Nat) (hi : i < l.length) :
    ((l.flatMap f).drop (k * i)).take k = f (l.get ⟨i, hi⟩) := by
  rw [flatMap_drop_blocks f k i l h]
  have hdec : l.drop i = l.get ⟨i, hi⟩ :: l.drop (i + 1) := by
    rw [List.drop_eq_getElem_cons hi]
    simp
  rw [hdec, List.flatMap_cons]
  have hfy : (f (l.get ⟨i, hi⟩)).length = k := h _ (List.get_mem l i hi)
  calc (f (l.get ⟨i, hi⟩) ++ (l.drop (i + 1)).flatMap f).take k
      = (f (l.get ⟨i, hi⟩) ++ (l.drop (i + 1)).flatMap f).take
          (f (l.get ⟨i, hi⟩)).length := by rw [hfy]
    _ = f (l.get ⟨i, hi⟩) := List.take_left _ _

/-! ## Binary-search correctness -/

lemma bsBase_eq (cmp : Nat → Ordering) (base size : Nat) :
    bsBase cmp base size =
      if 1 < size then
        (if cmp (base + size / 2) = .gt then bsBase cmp base (size - size / 2)
         else bsBase cmp (base + size / 2) (size - size / 2))
      else base := by
  rw [bsBase]
  simp only [dite_eq_ite]

lemma bsBase_range (cmp : Nat → Ordering) :
    ∀ size base, 0 < size →
      base ≤ bsBase cmp base size ∧ bsBase cmp base size < base + size := by
  intro size
  induction size using Nat.strong_induction_on with
  | _ size ih =>
    intro base hpos
    rw [bsBase_eq]
    by_cases h : 1 < size
    · simp only [h, if_true]
      by_cases hc : cmp (base + size / 2) = .gt
      · simp only [hc, if_true]
        have := ih (size - size / 2) (by omega) base (by omega)
        omega
      · simp only [hc, if_false]
        have := ih (size - size / 2) (by omega) (base + size / 2) (by omega)
        omega
    · simp only [h, if_false]
      omega

lemma bsBase_finds (cmp : Nat → Ordering) (N : Nat)
    (Hgt : ∀ i j, i ≤ j → j < N → cmp i = .gt → cmp j = .gt)
    (Hlt : ∀ i j, i ≤ j → j < N → cmp j = .lt → cmp i = .lt)
    (Huniq : ∀ i j, i < N → j < N → cmp i = .eq → cmp j = .eq → i = j) :
    ∀ size base k, base + size ≤ N → base ≤ k → k < base + size → cmp k = .eq →
      bsBase cmp base size = k := by
  intro size
  induction size using Nat.strong_induction_on with
  | _ size ih =>
    intro base k hN hbk hk heq
    rw [bsBase_eq]
    by_cases h : 1 < size
    · simp only [h, if_true]
      by_cases hc : cmp (base + size / 2) = .gt
      · simp only [hc, if_true]
        have hkmid : k < base + size / 2 := by
          by_contra hge
          push_neg at hge
          have hgt := Hgt (base + size / 2) k hge (by omega) hc
          rw [heq] at hgt
          exact absurd hgt (by decide)
        exact ih (size - size / 2) (by omega) base k (by omega) hbk (by omega) heq
      · simp only [hc, if_false]
        have hmidN : base + size / 2 < N := by omega
        have hkmid : base + size / 2 ≤ k := by
          rcases ho : cmp (base + size / 2) with _ | _ | _
          · by_contra hlt2
            push_neg at hlt2
            have hl := Hlt k (base + size / 2) (by omega) hmidN ho
            rw [heq] at hl
            exact absurd hl (by decide)
          · have := Huniq (base + size / 2) k hmidN (by omega) ho heq
            omega
          · exact absurd ho hc
        exact ih (size - size / 2) (by omega) (base + size / 2) k (by omega) hkmid
          (by omega) heq
    · simp only [h, if_false]
      omega

lemma binarySearchBy_found (cmp : Nat → Ordering) (size k : Nat)
    (Hgt : ∀ i j, i ≤ j → j < size → cmp i = .gt → cmp j = .gt)
    (Hlt : ∀ i j, i ≤ j → j < size → cmp j = .lt → cmp i = .lt)
    (Huniq : ∀ i j, i < size → j < size → cmp i = .eq → cmp j = .eq → i = j)
    (hk : k < size) (heq : cmp k = .eq) :
    binarySearchBy cmp size = .ok k := by
  unfold binarySearchBy
  have hsz : ¬ size = 0 := by omega
  simp only [hsz, if_false]
  have hb : bsBase cmp 0 size = k :=
    bsBase_finds cmp size Hgt Hlt Huniq size 0 k (by omega) (by omega) (by omega) heq
  rw [hb, heq]

lemma binarySearchBy_notfound (cmp : Nat → Ordering) (size : Nat)
    (h : ∀ i, i < size → cmp i ≠ .eq) :
    ∃ e, binarySearchBy cmp size = .error e := by
  unfold binarySearchBy
  by_cases hsz : size = 0
  · exact ⟨0, by simp [hsz]⟩
  · simp only [hsz, if_false]
    have hrange := bsBase_range cmp size 0 (by omega)
    rcases ho : cmp (bsBase cmp 0 size) with _ | _ | _
    · exact ⟨bsBase cmp 0 size + 1, by simp [ho]⟩
    · exact absurd ho (h _ (by omega))
    · exact ⟨bsBase cmp 0 size, by simp [ho]⟩

/-! ## Sorted-entry facts -/

lemma nodeLe_trans (a b c : List Nat × DeltaLocation)
    (hab : nodeLe a b = true) (hbc : nodeLe b c = true) : nodeLe a c = true := by
  simp only [nodeLe, decide_eq_true_eq] at hab hbc ⊢
  rcases h1 : compareBytes a.1 b.1 with _ | _ | _
  · rcases h2 : compareBytes b.1 c.1 with _ | _ | _
    · simp [compareBytes_lt_trans h1 h2]
    · rw [compareBytes_eq_iff] at h2
      rw [← h2, h1]
      simp
    · exact absurd h2 hbc
  · rw [compareBytes_eq_iff] at h1
    rw [h1]
    exact hbc
  · exact absurd h1 hab

lemma nodeLe_total (a b : List Nat × DeltaLocation) :
    (nodeLe a b || nodeLe b a) = true := by
  simp only [nodeLe, Bool.or_eq_true, decide_eq_true_eq]
  rcases h1 : compareBytes a.1 b.1 with _ | _ | _
  · exact Or.inl (by simp)
  · exact Or.inl (by simp)
  · rw [compareBytes_gt_iff] at h1
    exact Or.inr (by simp [h1])

lemma sortedValues_perm (values : List (List Nat × DeltaLocation)) :
    (sortedValues values).Perm values :=
  List.mergeSort_perm values nodeLe

lemma sortedValues_pairwise_lt (values : List (List Nat × DeltaLocation))
    (Hnodup : (values.map Prod.fst).Nodup) :
    List.Pairwise (fun a b => compareBytes a.1 b.1 = .lt) (sortedValues values) := by
  have hle : List.Pairwise (fun a b => nodeLe a b = true) (sortedValues values) :=
    List.sorted_mergeSort nodeLe_trans nodeLe_total values
  have hmapnd : ((sortedValues values).map Prod.fst).Nodup :=
    Hnodup.perm ((sortedValues_perm values).map Prod.fst).symm
  have hne : List.Pairwise (fun a b : List Nat × DeltaLocation => a.1 ≠ b.1)
      (sortedValues values) := by
    have := (List.pairwise_map).mp hmapnd
    exact this
  refine (hle.and hne).imp ?_
  rintro a b ⟨h1, h2⟩
  simp only [nodeLe, decide_eq_true_eq] at h1
  rcases h : compareBytes a.1 b.1 with _ | _ | _
  · rfl
  · rw [compareBytes_eq_iff] at h
    exact absurd h h2
  · exact absurd h h1

lemma pairwise_countP_split {α : Type} (q : α → Bool) :
    ∀ l : List α, List.Pairwise (fun x y => q y = true → q x = true) l →
      (∀ x ∈ l.take (l.countP q), q x = true) ∧
        (∀ x ∈ l.drop (l.countP q), q x = false) := by
  intro l
  induction l with
  | nil => simp
  | cons x xs ih =>
    intro hp
    have hx := (List.pairwise_cons.mp hp).1
    obtain ⟨iht, ihd⟩ := ih (List.pairwise_cons.mp hp).2
    by_cases hqx : q x = true
    · rw [List.countP_cons, if_pos hqx]
      constructor
      · intro z hz
        rw [List.take_succ_cons] at hz
        rcases List.mem_cons.mp hz with rfl | hz'
        · exact hqx
        · exact iht z hz'
      · intro z hz
        rw [List.drop_succ_cons] at hz
        exact ihd z hz
    · have hzero : xs.countP q = 0 := by
        by_contra h0
        have hpos : 0 < xs.countP q := by omega
        obtain ⟨y, hy, hqy⟩ := List.countP_pos_iff.mp hpos
        exact absurd (hx y hy hqy) hqx
      rw [List.countP_cons, if_neg hqx, hzero]
      refine ⟨by simp, ?_⟩
      intro z hz
      simp only [Nat.add_zero, List.drop_zero] at hz
      have hnz : ¬ q z = true := by
        rcases List.mem_cons.mp hz with rfl | hz'
        · exact hqx
        · intro hqz
          exact absurd (hx z hz' hqz) hqx
      cases hqz : q z
      · rfl
      · exact absurd hqz hnz

lemma pfx_mono (large : Bool) {a b : List Nat} (hlt : compareBytes a b = .lt)
    (ha : ValidNode a) (hb : ValidNode b) : pfxOf large a ≤ pfxOf large b := by
  obtain ⟨hal, hav⟩ := ha
  obtain ⟨hbl, hbv⟩ := hb
  rcases a with _ | ⟨a0, a⟩
  · simp at hal
  rcases a with _ | ⟨a1, a⟩
  · simp at hal
  rcases b with _ | ⟨b0, b⟩
  · simp at hbl
  rcases b with _ | ⟨b1, b⟩
  · simp at hbl
  have ha1 : a1 < 256 := hav a1 (by simp)
  have hb1 : b1 < 256 := hbv b1 (by simp)
  simp only [compareBytes] at hlt
  by_cases h0 : a0 < b0
  · cases large <;> simp [pfxOf] <;> omega
  · by_cases h0' : b0 < a0
    · simp [h0, h0'] at hlt
    · have he0 : a0 = b0 := by omega
      subst he0
      simp only [h0, if_false, lt_irrefl] at hlt
      by_cases h1 : a1 < b1
      · cases large
        · simp [pfxOf]
        · simp [pfxOf]
          omega
      · by_cases h1' : b1 < a1
        · simp [h1, h1'] at hlt
        · have he1 : a1 = b1 := by omega
          subst he1
          cases large <;> simp [pfxOf]

lemma pfx_bound (large : Bool) (a : List Nat) (ha : ValidNode a) :
    pfxOf large a < if large then 65536 else 256 := by
  obtain ⟨hal, hav⟩ := ha
  rcases a with _ | ⟨a0, a⟩
  · simp at hal
  rcases a with _ | ⟨a1, a⟩
  · simp at hal
  have ha0 : a0 < 256 := hav a0 (by simp)
  have ha1 : a1 < 256 := hav a1 (by simp)
  cases large <;> simp [pfxOf] <;> omega

/-! ## Writer-output structure -/

lemma IndexEntry.new_node (n : List Nat) (d : DeltaBaseOffset) (o s : Nat) :
    (IndexEntry.new n d o s).node = n := rfl

lemma IndexEntry.new_pack_entry_offset (n : List Nat) (d : DeltaBaseOffset) (o s : Nat) :
    (IndexEntry.new n d o s).pack_entry_offset = o := rfl

lemma IndexEntry.new_pack_entry_size (n : List Nat) (d : DeltaBaseOffset) (o s : Nat) :
    (IndexEntry.new n d o s).pack_entry_size = s := rfl

lemma sortedValues_valid (values : List (List Nat × DeltaLocation))
    (Hvalid : ∀ nv ∈ values, ValidNode nv.1) :
    ∀ nv ∈ sortedValues values, ValidNode nv.1 := fun nv h =>
  Hvalid nv ((sortedValues_perm values).mem_iff.mp h)

lemma sortedNodes_valid (values : List (List Nat × DeltaLocation))
    (Hvalid : ∀ nv ∈ values, ValidNode nv.1) :
    ∀ n ∈ sortedNodes values, ValidNode n := by
  intro n hn
  obtain ⟨nv, hnv, rfl⟩ := List.mem_map.mp hn
  exact sortedValues_valid values Hvalid nv hnv

lemma sortedNodes_pairwise (values : List (List Nat × DeltaLocation))
    (Hnodup : (values.map Prod.fst).Nodup) :
    List.Pairwise (fun a b => compareBytes a b = .lt) (sortedNodes values) :=
  List.pairwise_map.mpr (sortedValues_pairwise_lt values Hnodup)

lemma take_len_append (l1 l2 : List Nat) (k : Nat) (h : l1.length = k) :
    (l1 ++ l2).take k = l1 := by
  subst h
  exact List.take_left _ _

lemma drop_len_append (l1 l2 : List Nat) (k : Nat) (h : l1.length = k) :
    (l1 ++ l2).drop k = l2 := by
  subst h
  exact List.drop_left _ _

lemma writeBytes_length (e : IndexEntry) (h : e.node.length = 20) :
    e.writeBytes.length = 40 := by
  simp [IndexEntry.writeBytes, be_length, h]

lemma writeEntry_writeBytes_length (values : List (List Nat × DeltaLocation))
    (nv : List Nat × DeltaLocation) (h : ValidNode nv.1) :
    ((writeEntry (sortedNodes values) nv).writeBytes).length = 40 :=
  writeBytes_length _ (by simp [writeEntry, IndexEntry.new_node, h.1])

/-- The raw stored `u32` survives the `delta_base_offset().to_i32()` write
path bit-for-bit, provided it is a representable offset or a sentinel. -/
lemma writeBytes_rawbits (e : IndexEntry)
    (h : e.delta_base_offset < 2 ^ 31 ∨ e.delta_base_offset = 2 ^ 32 - 1 ∨
      e.delta_base_offset = 2 ^ 32 - 2) :
    u32cast e.delta_base_offset'.to_i32 = e.delta_base_offset := by
  rcases h with h | h | h
  · have h1 : ¬ e.delta_base_offset = 0xffffffff := by omega
    have h2 : ¬ e.delta_base_offset = 0xfffffffe := by omega
    simp only [IndexEntry.delta_base_offset', h1, h2, if_false, DeltaBaseOffset.to_i32]
    unfold i32val u32cast
    split <;> omega
  · simp only [IndexEntry.delta_base_offset', h, DeltaBaseOffset.to_i32]
    norm_num
    unfold u32cast
    decide
  · have h1 : ¬ e.delta_base_offset = 0xffffffff := by omega
    simp only [IndexEntry.delta_base_offset', h, h1, if_false, if_true,
      DeltaBaseOffset.to_i32]
    norm_num
    unfold u32cast
    decide

/-- Entry-codec round trip: reading back a written 40-byte entry
reconstructs the in-memory entry. -/
lemma indexEntry_read_writeBytes (e : IndexEntry) (hn : e.node.length = 20)
    (ho : e.pack_entry_offset < 2 ^ 64) (hs : e.pack_entry_size < 2 ^ 64)
    (hd : e.delta_base_offset < 2 ^ 31 ∨ e.delta_base_offset = 2 ^ 32 - 1 ∨
      e.delta_base_offset = 2 ^ 32 - 2) :
    IndexEntry.read e.writeBytes = .ok e := by
  obtain ⟨n, dr, o, s⟩ := e
  simp only at hn ho hs hd
  have hraw : u32cast (IndexEntry.mk n dr o s).delta_base_offset'.to_i32 = dr :=
    writeBytes_rawbits _ hd
  have hbytes : (IndexEntry.mk n dr o s).writeBytes =
      n ++ (be 4 dr ++ (be 8 o ++ be 8 s)) := by
    simp only [IndexEntry.writeBytes, hraw, List.append_assoc]
  have hlen : (IndexEntry.mk n dr o s).writeBytes.length = 40 := writeBytes_length _ hn
  have htake20 : (IndexEntry.mk n dr o s).writeBytes.take 20 = n := by
    rw [hbytes]
    exact take_len_append _ _ _ hn
  have hdrop20 : (IndexEntry.mk n dr o s).writeBytes.drop 20 =
      be 4 dr ++ (be 8 o ++ be 8 s) := by
    rw [hbytes]
    exact drop_len_append _ _ _ hn
  have hd4 : ((IndexEntry.mk n dr o s).writeBytes.drop 20).take 4 = be 4 dr := by
    rw [hdrop20]
    exact take_len_append _ _ _ (be_length 4 dr)
  have hd24 : ((IndexEntry.mk n dr o s).writeBytes.drop 24).take 8 = be 8 o := by
    rw [show (24 : Nat) = 20 + 4 by rfl, ← List.drop_drop, hdrop20,
      drop_len_append _ _ _ (be_length 4 dr)]
    exact take_len_append _ _ _ (be_length 8 o)
  have hd32 : ((IndexEntry.mk n dr o s).writeBytes.drop 32).take 8 = be 8 s := by
    rw [show (32 : Nat) = 20 + 12 by rfl, ← List.drop_drop, hdrop20]
    rw [show (12 : Nat) = 4 + 8 by rfl, ← List.drop_drop,
      drop_len_append _ _ _ (be_length 4 dr), drop_len_append _ _ _ (be_length 8 o)]
    exact List.take_of_length_le (by rw [be_length])
  have hdval : beDecode (((IndexEntry.mk n dr o s).writeBytes.drop 20).take 4) = dr := by
    rw [hd4]
    exact beDecode_be_of_lt 4 dr (by norm_num; omega)
  have hoval : beDecode (((IndexEntry.mk n dr o s).writeBytes.drop 24).take 8) = o := by
    rw [hd24]
    exact beDecode_be_of_lt 8 o (by norm_num; omega)
  have hsval : beDecode (((IndexEntry.mk n dr o s).writeBytes.drop 32).take 8) = s := by
    rw [hd32]
    exact beDecode_be_of_lt 8 s (by norm_num; omega)
  rcases hd with hdr | hdr | hdr
  · have hnew : DeltaBaseOffset.new
        (i32val (beDecode (((IndexEntry.mk n dr o s).writeBytes.drop 20).take 4))) =
        .ok (.offset dr) := by
      rw [hdval]
      unfold i32val
      rw [if_pos (by omega)]
      simp [DeltaBaseOffset.new]
    rw [indexEntry_read_of_new_ok _ hlen _ hnew, htake20, hoval, hsval]
    have h1 : ¬ dr = 0xffffffff := by omega
    have h2 : ¬ dr = 0xfffffffe := by omega
    simp [IndexEntry.new]
  · have hnew : DeltaBaseOffset.new
        (i32val (beDecode (((IndexEntry.mk n dr o s).writeBytes.drop 20).take 4))) =
        .ok .fullText := by
      rw [hdval, hdr]
      norm_num [i32val, DeltaBaseOffset.new]
    rw [indexEntry_read_of_new_ok _ hlen _ hnew, htake20, hoval, hsval]
    simp [IndexEntry.new, hdr]
  · have hnew : DeltaBaseOffset.new
        (i32val (beDecode (((IndexEntry.mk n dr o s).writeBytes.drop 20).take 4))) =
        .ok .missing := by
      rw [hdval, hdr]
      norm_num [i32val, DeltaBaseOffset.new]
    rw [indexEntry_read_of_new_ok _ hlen _ hnew, htake20, hoval, hsval]
    simp [IndexEntry.new, hdr]

lemma write_eq (values : List (List Nat × DeltaLocation)) :
    DataIndex.write values =
      (1 :: (if decide (SMALL_FANOUT_CUTOFF < values.length) then 128 else 0) ::
        (fanoutTable (decide (SMALL_FANOUT_CUTOFF < values.length))
          (sortedNodes values)).flatMap (be 4)) ++
      (be 8 values.length ++
        (sortedValues values).flatMap
          (fun nv => (writeEntry (sortedNodes values) nv).writeBytes)) := by
  simp [DataIndex.write, DataIndexOptions.writeBytes]

lemma fanoutTable_length (large : Bool) (nodes : List (List Nat)) :
    (fanoutTable large nodes).length = if large then 65536 else 256 := by
  simp [fanoutTable]

lemma fanBytes_length (large : Bool) (nodes : List (List Nat)) :
    ((fanoutTable large nodes).flatMap (be 4)).length = FanoutTable.get_size large := by
  rw [flatMap_length_const (be 4) 4 _ (fun x _ => be_length 4 x), fanoutTable_length]
  cases large <;> simp [FanoutTable.get_size]

lemma region_length (values : List (List Nat × DeltaLocation))
    (Hvalid : ∀ nv ∈ values, ValidNode nv.1) :
    ((sortedValues values).flatMap
      (fun nv => (writeEntry (sortedNodes values) nv).writeBytes)).length =
      40 * values.length := by
  rw [flatMap_length_const _ 40 _
    (fun nv hnv => writeEntry_writeBytes_length values nv (sortedValues_valid values Hvalid nv hnv))]
  rw [(sortedValues_perm values).length_eq]

lemma write_length (values : List (List Nat × DeltaLocation))
    (Hvalid : ∀ nv ∈ values, ValidNode nv.1) :
    (DataIndex.write values).length =
      2 + FanoutTable.get_size (decide (SMALL_FANOUT_CUTOFF < values.length)) + 8 +
        40 * values.length := by
  rw [write_eq]
  simp only [List.length_append, List.length_cons, fanBytes_length,
    region_length values Hvalid, be_length]
  ring

lemma new_write (values : List (List Nat × DeltaLocation)) :
    DataIndex.new (DataIndex.write values) =
      .ok ⟨DataIndex.write values,
        FanoutTable.get_size (decide (SMALL_FANOUT_CUTOFF < values.length)),
        2 + FanoutTable.get_size (decide (SMALL_FANOUT_CUTOFF < values.length)) + 8⟩ := by
  rw [DataIndex.new, write_eq]
  by_cases hL : SMALL_FANOUT_CUTOFF < values.length
  · simp [DataIndexOptions.read, hL]
  · simp [DataIndexOptions.read, hL]

lemma fanout_slice_write (values : List (List Nat × DeltaLocation)) :
    (DataIndex.mk (DataIndex.write values)
        (FanoutTable.get_size (decide (SMALL_FANOUT_CUTOFF < values.length)))
        (2 + FanoutTable.get_size (decide (SMALL_FANOUT_CUTOFF < values.length)) + 8)
      ).get_fanout_slice =
      (fanoutTable (decide (SMALL_FANOUT_CUTOFF < values.length))
        (sortedNodes values)).flatMap (be 4) := by
  simp only [DataIndex.get_fanout_slice, write_eq]
  rw [show (2 : Nat) = ([1, if decide (SMALL_FANOUT_CUTOFF < values.length) then
      (128 : Nat) else 0] : List Nat).length by simp]
  rw [show (1 :: (if decide (SMALL_FANOUT_CUTOFF < values.length) then (128:Nat) else 0) ::
      (fanoutTable (decide (SMALL_FANOUT_CUTOFF < values.length))
        (sortedNodes values)).flatMap (be 4)) ++
      (be 8 values.length ++ (sortedValues values).flatMap
        (fun nv => (writeEntry (sortedNodes values) nv).writeBytes)) =
      [1, if decide (SMALL_FANOUT_CUTOFF < values.length) then (128:Nat) else 0] ++
      ((fanoutTable (decide (SMALL_FANOUT_CUTOFF < values.length))
        (sortedNodes values)).flatMap (be 4) ++
      (be 8 values.length ++ (sortedValues values).flatMap
        (fun nv => (writeEntry (sortedNodes values) nv).writeBytes))) by simp]
  rw [List.drop_left]
  exact take_len_append _ _ _ (fanBytes_length _ _)

lemma sortedNodes_length (values : List (List Nat × DeltaLocation)) :
    (sortedNodes values).length = values.length := by
  rw [sortedNodes, List.length_map, (sortedValues_perm values).length_eq]

lemma fan_slot (large : Bool) (nodes : List (List Nat)) (q : Nat)
    (hq : q < (if large then 65536 else 256)) :
    (((fanoutTable large nodes).flatMap (be 4)).drop (4 * q)).take 4 =
      be 4 (ENTRY_LEN * nodes.countP (fun n => decide (pfxOf large n < q))) := by
  rw [flatMap_block_get (be 4) 4 (fanoutTable large nodes) (fun x _ => be_length 4 x) q
    (by rw [fanoutTable_length]; exact hq)]
  congr 1
  rw [List.get_eq_getElem]
  simp [fanoutTable]

lemma get_bounds_fanBytes (large : Bool) (nodes : List (List Nat)) (k : List Nat)
    (hk : ValidNode k) (hbound : ENTRY_LEN * nodes.length < 2 ^ 31) :
    FanoutTable.get_bounds ((fanoutTable large nodes).flatMap (be 4)) k =
      (ENTRY_LEN * nodes.countP (fun n => decide (pfxOf large n < pfxOf large k)),
       if pfxOf large k = (if large then 65535 else 255) then none
       else some (ENTRY_LEN * nodes.countP
         (fun n => decide (pfxOf large n < pfxOf large k + 1)))) := by
  have hdet : decide ((((fanoutTable large nodes).flatMap (be 4)).length = 65536 * 4)) =
      large := by
    rw [fanBytes_length]
    cases large <;> simp [FanoutTable.get_size]
  have hcnt : ∀ q : Nat, ENTRY_LEN * nodes.countP (fun n => decide (pfxOf large n < q)) <
      256 ^ 4 := by
    intro q
    have h1 : nodes.countP (fun n => decide (pfxOf large n < q)) ≤ nodes.length :=
      List.countP_le_length _
    have h2 : ENTRY_LEN * nodes.countP (fun n => decide (pfxOf large n < q)) ≤
        ENTRY_LEN * nodes.length := Nat.mul_le_mul_left _ h1
    have : (2 : Nat) ^ 31 < 256 ^ 4 := by norm_num
    omega
  have hp : pfxOf large k < (if large then 65536 else 256) := pfx_bound large k hk
  rw [FanoutTable.get_bounds]
  simp only [hdet, Prod.mk.injEq]
  constructor
  · rw [fan_slot large nodes _ hp]
    exact beDecode_be_of_lt _ _ (hcnt _)
  · by_cases hmax : pfxOf large k = (if large then 65535 else 255)
    · rw [if_pos hmax, if_pos hmax]
    · have hsucc : pfxOf large k + 1 < (if large then 65536 else 256) := by
        cases large
        · simp only [Bool.false_eq_true, if_false] at hp hmax ⊢
          omega
        · simp only [if_true] at hp hmax ⊢
          omega
      rw [if_neg hmax, if_neg hmax, fan_slot large nodes _ hsucc]
      exact congrArg some (beDecode_be_of_lt _ _ (hcnt _))

lemma findIdx?_none_aux (b : List Nat) :
    ∀ (l : List (List Nat)) (start : Nat), b ∉ l →
      l.findIdx? (fun n => decide (n = b)) start = none := by
  intro l
  induction l with
  | nil => intro start _; simp
  | cons x xs ih =>
    intro start hnot
    rw [List.findIdx?_cons]
    have hx : ¬ x = b := fun h => hnot (h ▸ List.mem_cons_self x xs)
    rw [if_neg (by simp [hx])]
    exact ih (start + 1) (fun h => hnot (List.mem_cons_of_mem x h))

lemma findIdx?_mem_aux (b : List Nat) :
    ∀ (l : List (List Nat)) (start : Nat), b ∈ l →
      ∃ i, l.findIdx? (fun n => decide (n = b)) start = some (start + i) ∧
        ∃ h : i < l.length, l.get ⟨i, h⟩ = b := by
  intro l
  induction l with
  | nil => intro start h; simp at h
  | cons x xs ih =>
    intro start hmem
    rw [List.findIdx?_cons]
    by_cases hx : x = b
    · exact ⟨0, by simp [hx], by simp, by simp [hx]⟩
    · have hmem' : b ∈ xs := by
        rcases List.mem_cons.mp hmem with h | h
        · exact absurd h.symm hx
        · exact h
      obtain ⟨i, hfind, hlt, hget⟩ := ih (start + 1) hmem'
      refine ⟨i + 1, ?_, by simpa using hlt, ?_⟩
      · rw [if_neg (by simp [hx]), hfind]
        congr 1
        omega
      · simpa using hget

lemma nodelocations_mem (ns : List (List Nat)) (b : List Nat) (h : b ∈ ns) :
    ∃ i, ∃ hlt : i < ns.length,
      nodelocations ns b = some (ENTRY_LEN * i) ∧ ns.get ⟨i, hlt⟩ = b := by
  obtain ⟨i, hf, hlt, hget⟩ := findIdx?_mem_aux b ns 0 h
  refine ⟨i, hlt, ?_, hget⟩
  simp only [nodelocations, hf, Option.map_some]
  norm_num

lemma nodelocations_not_mem (ns : List (List Nat)) (b : List Nat) (h : b ∉ ns) :
    nodelocations ns b = none := by
  simp [nodelocations, findIdx?_none_aux b ns 0 h]

lemma writeEntry_raw_cases (values : List (List Nat × DeltaLocation))
    (Hsize : ENTRY_LEN * values.length < 2 ^ 31) (nv : List Nat × DeltaLocation) :
    (writeEntry (sortedNodes values) nv).delta_base_offset < 2 ^ 31 ∨
      (writeEntry (sortedNodes values) nv).delta_base_offset = 2 ^ 32 - 1 ∨
      (writeEntry (sortedNodes values) nv).delta_base_offset = 2 ^ 32 - 2 := by
  rcases hdb : nv.2.delta_base with _ | b
  · right
    left
    simp [writeEntry, IndexEntry.new, resolveBase, hdb]
  · by_cases hb : b ∈ sortedNodes values
    · obtain ⟨i, hlt, hloc, _⟩ := nodelocations_mem (sortedNodes values) b hb
      left
      rw [sortedNodes_length] at hlt
      have h40 : ENTRY_LEN * i < ENTRY_LEN * values.length := by
        have : (0:Nat) < ENTRY_LEN := by norm_num [ENTRY_LEN]
        exact (Nat.mul_lt_mul_left this).mpr hlt
      simp only [writeEntry, IndexEntry.new, resolveBase, hdb, hloc]
      omega
    · right
      right
      simp [writeEntry, IndexEntry.new, resolveBase, hdb,
        nodelocations_not_mem (sortedNodes values) b hb]

lemma write_drop (values : List (List Nat × DeltaLocation)) (y : Nat) :
    (DataIndex.write values).drop
        (2 + FanoutTable.get_size (decide (SMALL_FANOUT_CUTOFF < values.length)) + 8 + y) =
      ((sortedValues values).flatMap
        (fun nv => (writeEntry (sortedNodes values) nv).writeBytes)).drop y := by
  have hA : (1 :: (if decide (SMALL_FANOUT_CUTOFF < values.length) then (128:Nat) else 0) ::
      (fanoutTable (decide (SMALL_FANOUT_CUTOFF < values.length))
        (sortedNodes values)).flatMap (be 4)).length =
      2 + FanoutTable.get_size (decide (SMALL_FANOUT_CUTOFF < values.length)) := by
    simp only [List.length_cons, fanBytes_length]
    omega
  rw [write_eq]
  rw [show 2 + FanoutTable.get_size (decide (SMALL_FANOUT_CUTOFF < values.length)) + 8 + y =
    (1 :: (if decide (SMALL_FANOUT_CUTOFF < values.length) then (128:Nat) else 0) ::
      (fanoutTable (decide (SMALL_FANOUT_CUTOFF < values.length))
        (sortedNodes values)).flatMap (be 4)).length + (8 + y) by rw [hA]; omega]
  rw [List.drop_append]
  rw [show 8 + y = (be 8 values.length).length + y by rw [be_length]]
  rw [List.drop_append]

lemma read_entry_write (values : List (List Nat × DeltaLocation))
    (Hvalid : ∀ nv ∈ values, ValidNode nv.1)
    (Hsize : ENTRY_LEN * values.length < 2 ^ 31)
    (Hrange : ∀ nv ∈ values, nv.2.offset < 2 ^ 64 ∧ nv.2.size < 2 ^ 64)
    (j : Nat) (hj : j < (sortedValues values).length) :
    DataIndex.read_entry
      (DataIndex.mk (DataIndex.write values)
        (FanoutTable.get_size (decide (SMALL_FANOUT_CUTOFF < values.length)))
        (2 + FanoutTable.get_size (decide (SMALL_FANOUT_CUTOFF < values.length)) + 8))
      (40 * j) =
      .ok (writeEntry (sortedNodes values) ((sortedValues values).get ⟨j, hj⟩)) := by
  have hsvlen : (sortedValues values).length = values.length :=
    (sortedValues_perm values).length_eq
  have hulen : ∀ nv ∈ sortedValues values,
      ((writeEntry (sortedNodes values) nv).writeBytes).length = 40 := fun nv hnv =>
    writeEntry_writeBytes_length values nv (sortedValues_valid values Hvalid nv hnv)
  have hflen : (DataIndex.write values).length =
      2 + FanoutTable.get_size (decide (SMALL_FANOUT_CUTOFF < values.length)) + 8 +
        40 * values.length := write_length values Hvalid
  simp only [DataIndex.read_entry, Bind.bind, Except.bind, get_err, ENTRY_LEN]
  rw [if_pos (by constructor <;> omega)]
  have hdrop : (DataIndex.write values).drop
      (40 * j + (2 + FanoutTable.get_size (decide (SMALL_FANOUT_CUTOFF < values.length)) + 8)) =
      ((sortedValues values).flatMap
        (fun nv => (writeEntry (sortedNodes values) nv).writeBytes)).drop (40 * j) := by
    rw [show 40 * j + (2 + FanoutTable.get_size
        (decide (SMALL_FANOUT_CUTOFF < values.length)) + 8) =
      2 + FanoutTable.get_size (decide (SMALL_FANOUT_CUTOFF < values.length)) + 8 + 40 * j
      by omega]
    exact write_drop values (40 * j)
  rw [show 40 * j + (2 + FanoutTable.get_size
      (decide (SMALL_FANOUT_CUTOFF < values.length)) + 8) + 40 -
      (40 * j + (2 + FanoutTable.get_size
        (decide (SMALL_FANOUT_CUTOFF < values.length)) + 8)) = 40 by omega]
  rw [hdrop, flatMap_block_get _ 40 _ hulen j hj]
  exact indexEntry_read_writeBytes _
    (by rw [writeEntry, IndexEntry.new_node]
        exact (sortedValues_valid values Hvalid _ (List.get_mem _ j hj)).1)
    (by rw [writeEntry, IndexEntry.new_pack_entry_offset]
        exact (Hrange _ ((sortedValues_perm values).mem_iff.mp (List.get_mem _ j hj))).1)
    (by rw [writeEntry, IndexEntry.new_pack_entry_size]
        exact (Hrange _ ((sortedValues_perm values).mem_iff.mp (List.get_mem _ j hj))).2)
    (writeEntry_raw_cases values Hsize _)

lemma binary_search_flatMap {α : Type} (f : α → List Nat) (g : α → List Nat)
    (l : List α) (key : List Nat)
    (hlen : ∀ x ∈ l, (f x).length = 40)
    (hg : ∀ x ∈ l, (f x).take 20 = g x)
    (hpw : List.Pairwise (fun x y => compareBytes (g x) (g y) = .lt) l) :
    (∀ i, (hi : i < l.length) → g (l.get ⟨i, hi⟩) = key →
      DataIndex.binary_search key (l.flatMap f) = .ok (i * 40)) ∧
    ((∀ x ∈ l, g x ≠ key) →
      DataIndex.binary_search key (l.flatMap f) = .error .keyNotFound) := by
  have hblen : (l.flatMap f).length = 40 * l.length := flatMap_length_const f 40 l hlen
  have hsize : (l.flatMap f).length / ENTRY_LEN = l.length := by
    rw [hblen, ENTRY_LEN, Nat.mul_div_cancel_left _ (by norm_num)]
  have hcmp : ∀ i, (hi : i < l.length) →
      compareBytes ((((l.flatMap f).drop (ENTRY_LEN * i)).take ENTRY_LEN).take 20) key =
        compareBytes (g (l.get ⟨i, hi⟩)) key := by
    intro i hi
    rw [show ENTRY_LEN = 40 from rfl, flatMap_block_get f 40 l hlen i hi,
      hg _ (List.get_mem l i hi)]
  have hpwi : ∀ i j, (hi : i < l.length) → (hj : j < l.length) → i < j →
      compareBytes (g (l.get ⟨i, hi⟩)) (g (l.get ⟨j, hj⟩)) = .lt := by
    intro i j hi hj hij
    have := List.pairwise_iff_getElem.mp hpw i j hi hj hij
    simpa [List.get_eq_getElem] using this
  have Hgt : ∀ i j, i ≤ j → j < l.length →
      compareBytes ((((l.flatMap f).drop (ENTRY_LEN * i)).take ENTRY_LEN).take 20) key = .gt →
      compareBytes ((((l.flatMap f).drop (ENTRY_LEN * j)).take ENTRY_LEN).take 20) key = .gt := by
    intro i j hij hj hcgt
    have hi : i < l.length := by omega
    rw [hcmp i hi] at hcgt
    rw [hcmp j hj]
    rcases Nat.eq_or_lt_of_le hij with rfl | hlt
    · exact hcgt
    · rw [compareBytes_gt_iff] at hcgt ⊢
      exact compareBytes_lt_trans hcgt (hpwi i j hi hj hlt)
  have Hlt : ∀ i j, i ≤ j → j < l.length →
      compareBytes ((((l.flatMap f).drop (ENTRY_LEN * j)).take ENTRY_LEN).take 20) key = .lt →
      compareBytes ((((l.flatMap f).drop (ENTRY_LEN * i)).take ENTRY_LEN).take 20) key = .lt := by
    intro i j hij hj hclt
    have hi : i < l.length := by omega
    rw [hcmp j hj] at hclt
    rw [hcmp i hi]
    rcases Nat.eq_or_lt_of_le hij with rfl | hlt
    · exact hclt
    · exact compareBytes_lt_trans (hpwi i j hi hj hlt) hclt
  have Huniq : ∀ i j, i < l.length → j < l.length →
      compareBytes ((((l.flatMap f).drop (ENTRY_LEN * i)).take ENTRY_LEN).take 20) key = .eq →
      compareBytes ((((l.flatMap f).drop (ENTRY_LEN * j)).take ENTRY_LEN).take 20) key = .eq →
      i = j := by
    intro i j hi hj hei hej
    rw [hcmp i hi, compareBytes_eq_iff] at hei
    rw [hcmp j hj, compareBytes_eq_iff] at hej
    by_contra hne
    rcases Nat.lt_or_ge i j with hlt | hge
    · have := hpwi i j hi hj hlt
      rw [hei, hej, (compareBytes_eq_iff key key).mpr rfl] at this
      exact absurd this (by decide)
    · have hlt : j < i := by omega
      have := hpwi j i hj hi hlt
      rw [hei, hej, (compareBytes_eq_iff key key).mpr rfl] at this
      exact absurd this (by decide)
  constructor
  · intro i hi hki
    have hfound := binarySearchBy_found _ l.length i
      (by rw [← hsize] at Hgt; exact fun i' j' h1 h2 => Hgt i' j' h1 (by omega))
      (by rw [← hsize] at Hlt; exact fun i' j' h1 h2 => Hlt i' j' h1 (by omega))
      (by exact fun i' j' h1 h2 => Huniq i' j' h1 h2)
      hi (by rw [hcmp i hi, hki]; exact (compareBytes_eq_iff key key).mpr rfl)
    rw [DataIndex.binary_search, hsize, hfound]
    rfl
  · intro hne
    obtain ⟨e, he⟩ := binarySearchBy_notfound
      (fun i => compareBytes ((((l.flatMap f).drop (ENTRY_LEN * i)).take ENTRY_LEN).take 20) key)
      l.length
      (by
        intro i hi hceq
        have hceq' : compareBytes (g (l.get ⟨i, hi⟩)) key = .eq := by
          rw [← hcmp i hi]
          exact hceq
        exact hne _ (List.get_mem l i hi) ((compareBytes_eq_iff _ _).mp hceq'))
    rw [DataIndex.binary_search, hsize, he]

lemma pfx_class_split (large : Bool) (values : List (List Nat × DeltaLocation))
    (Hvalid : ∀ nv ∈ values, ValidNode nv.1)
    (Hnodup : (values.map Prod.fst).Nodup) (p : Nat) :
    (∀ x ∈ (sortedNodes values).take
        ((sortedNodes values).countP (fun n => decide (pfxOf large n < p))),
      pfxOf large x < p) ∧
    (∀ x ∈ (sortedNodes values).drop
        ((sortedNodes values).countP (fun n => decide (pfxOf large n < p))),
      p ≤ pfxOf large x) := by
  have hpw : List.Pairwise
      (fun x y => decide (pfxOf large y < p) = true → decide (pfxOf large x < p) = true)
      (sortedNodes values) := by
    refine (sortedNodes_pairwise values Hnodup).imp_of_mem ?_
    intro a b ha hb hr
    simp only [decide_eq_true_eq]
    have := pfx_mono large hr (sortedNodes_valid values Hvalid a ha)
      (sortedNodes_valid values Hvalid b hb)
    omega
  obtain ⟨h1, h2⟩ := pairwise_countP_split _ (sortedNodes values) hpw
  constructor
  · intro x hx
    have := h1 x hx
    simpa using this
  · intro x hx
    have := h2 x hx
    simp only [decide_eq_false_iff_not] at this
    omega

lemma mid_window (large : Bool) (values : List (List Nat × DeltaLocation))
    (Hvalid : ∀ nv ∈ values, ValidNode nv.1)
    (Hnodup : (values.map Prod.fst).Nodup) (p : Nat) :
    (sortedNodes values).countP (fun n => decide (pfxOf large n < p)) ≤
      (sortedNodes values).countP (fun n => decide (pfxOf large n < p + 1)) ∧
    (sortedNodes values).countP (fun n => decide (pfxOf large n < p + 1)) ≤
      (sortedNodes values).length ∧
    (∀ k, k ∈ sortedNodes values → pfxOf large k = p →
      k ∈ ((sortedNodes values).drop
          ((sortedNodes values).countP (fun n => decide (pfxOf large n < p)))).take
        ((sortedNodes values).countP (fun n => decide (pfxOf large n < p + 1)) -
          (sortedNodes values).countP (fun n => decide (pfxOf large n < p)))) := by
  have hab : (sortedNodes values).countP (fun n => decide (pfxOf large n < p)) ≤
      (sortedNodes values).countP (fun n => decide (pfxOf large n < p + 1)) :=
    List.countP_mono_left (by intro x _ h; simp only [decide_eq_true_eq] at h ⊢; omega)
  have hbl := List.countP_le_length
    (fun n => decide (pfxOf large n < p + 1)) (l := sortedNodes values)
  refine ⟨hab, hbl, ?_⟩
  intro k hk hpk
  obtain ⟨hta, hda⟩ := pfx_class_split large values Hvalid Hnodup p
  obtain ⟨htb, hdb⟩ := pfx_class_split large values Hvalid Hnodup (p + 1)
  set a := (sortedNodes values).countP (fun n => decide (pfxOf large n < p)) with hadef
  set b := (sortedNodes values).countP (fun n => decide (pfxOf large n < p + 1)) with hbdef
  have hsplit : sortedNodes values =
      (sortedNodes values).take a ++
        (((sortedNodes values).drop a).take (b - a) ++ (sortedNodes values).drop b) := by
    have h1 : ((sortedNodes values).drop a).drop (b - a) = (sortedNodes values).drop b := by
      rw [List.drop_drop]
      congr 1
      omega
    rw [← h1, List.take_append_drop, List.take_append_drop]
  rw [hsplit] at hk
  rcases List.mem_append.mp hk with hk1 | hk2
  · have := hta k hk1
    omega
  · rcases List.mem_append.mp hk2 with hk3 | hk4
    · exact hk3
    · have := hdb k hk4
      omega

lemma get_entry_write_eval (values : List (List Nat × DeltaLocation))
    (Hvalid : ∀ nv ∈ values, ValidNode nv.1)
    (Hsize : ENTRY_LEN * values.length < 2 ^ 31)
    (k : List Nat) (hk : ValidNode k) :
    DataIndex.get_entry
      (DataIndex.mk (DataIndex.write values)
        (FanoutTable.get_size (decide (SMALL_FANOUT_CUTOFF < values.length)))
        (2 + FanoutTable.get_size (decide (SMALL_FANOUT_CUTOFF < values.length)) + 8))
      k =
      (match DataIndex.binary_search k
        ((((sortedValues values).drop
            ((sortedNodes values).countP (fun n =>
              decide (pfxOf (decide (SMALL_FANOUT_CUTOFF < values.length)) n <
                pfxOf (decide (SMALL_FANOUT_CUTOFF < values.length)) k)))).take
          ((sortedNodes values).countP (fun n =>
              decide (pfxOf (decide (SMALL_FANOUT_CUTOFF < values.length)) n <
                pfxOf (decide (SMALL_FANOUT_CUTOFF < values.length)) k + 1)) -
            (sortedNodes values).countP (fun n =>
              decide (pfxOf (decide (SMALL_FANOUT_CUTOFF < values.length)) n <
                pfxOf (decide (SMALL_FANOUT_CUTOFF < values.length)) k)))).flatMap
          (fun nv => (writeEntry (sortedNodes values) nv).writeBytes)) with
      | .ok off => DataIndex.read_entry
          (DataIndex.mk (DataIndex.write values)
            (FanoutTable.get_size (decide (SMALL_FANOUT_CUTOFF < values.length)))
            (2 + FanoutTable.get_size (decide (SMALL_FANOUT_CUTOFF < values.length)) + 8))
          (40 * (sortedNodes values).countP (fun n =>
              decide (pfxOf (decide (SMALL_FANOUT_CUTOFF < values.length)) n <
                pfxOf (decide (SMALL_FANOUT_CUTOFF < values.length)) k)) + off)
      | .error e => .error e) := by
  have hnsb : ENTRY_LEN * (sortedNodes values).length < 2 ^ 31 := by
    rw [sortedNodes_length]
    exact Hsize
  have hbounds := get_bounds_fanBytes (decide (SMALL_FANOUT_CUTOFF < values.length)) (sortedNodes values) k hk hnsb
  have hble : (sortedNodes values).countP (fun n => decide (pfxOf (decide (SMALL_FANOUT_CUTOFF < values.length)) n < pfxOf (decide (SMALL_FANOUT_CUTOFF < values.length)) k + 1)) ≤ (sortedNodes values).length := List.countP_le_length _
  have hab : (sortedNodes values).countP (fun n => decide (pfxOf (decide (SMALL_FANOUT_CUTOFF < values.length)) n < pfxOf (decide (SMALL_FANOUT_CUTOFF < values.length)) k)) ≤ (sortedNodes values).countP (fun n => decide (pfxOf (decide (SMALL_FANOUT_CUTOFF < values.length)) n < pfxOf (decide (SMALL_FANOUT_CUTOFF < values.length)) k + 1)) :=
    List.countP_mono_left (by intro x _ h; simp only [decide_eq_true_eq] at h ⊢; omega)
  have hulen : ∀ nv ∈ sortedValues values,
      ((writeEntry (sortedNodes values) nv).writeBytes).length = 40 := fun nv hnv =>
    writeEntry_writeBytes_length values nv (sortedValues_valid values Hvalid nv hnv)
  have hflen := write_length values Hvalid
  have hsvlen : (sortedValues values).length = values.length :=
    (sortedValues_perm values).length_eq
  have hslice : ∀ e : Nat,
      e = 2 + FanoutTable.get_size (decide (SMALL_FANOUT_CUTOFF < values.length)) + 8 + 40 * ((sortedNodes values).countP (fun n => decide (pfxOf (decide (SMALL_FANOUT_CUTOFF < values.length)) n < pfxOf (decide (SMALL_FANOUT_CUTOFF < values.length)) k + 1))) →
      ((DataIndex.write values).drop
          (40 * ((sortedNodes values).countP (fun n => decide (pfxOf (decide (SMALL_FANOUT_CUTOFF < values.length)) n < pfxOf (decide (SMALL_FANOUT_CUTOFF < values.length)) k))) + (2 + FanoutTable.get_size (decide (SMALL_FANOUT_CUTOFF < values.length)) + 8))).take
        (e - (40 * ((sortedNodes values).countP (fun n => decide (pfxOf (decide (SMALL_FANOUT_CUTOFF < values.length)) n < pfxOf (decide (SMALL_FANOUT_CUTOFF < values.length)) k))) + (2 + FanoutTable.get_size (decide (SMALL_FANOUT_CUTOFF < values.length)) + 8))) =
      (((sortedValues values).drop ((sortedNodes values).countP (fun n => decide (pfxOf (decide (SMALL_FANOUT_CUTOFF < values.length)) n < pfxOf (decide (SMALL_FANOUT_CUTOFF < values.length)) k)))).take (((sortedNodes values).countP (fun n => decide (pfxOf (decide (SMALL_FANOUT_CUTOFF < values.length)) n < pfxOf (decide (SMALL_FANOUT_CUTOFF < values.length)) k + 1))) - ((sortedNodes values).countP (fun n => decide (pfxOf (decide (SMALL_FANOUT_CUTOFF < values.length)) n < pfxOf (decide (SMALL_FANOUT_CUTOFF < values.length)) k))))).flatMap
        (fun nv => (writeEntry (sortedNodes values) nv).writeBytes) := by
    intro e he
    subst he
    rw [show 40 * ((sortedNodes values).countP (fun n => decide (pfxOf (decide (SMALL_FANOUT_CUTOFF < values.length)) n < pfxOf (decide (SMALL_FANOUT_CUTOFF < values.length)) k))) + (2 + FanoutTable.get_size (decide (SMALL_FANOUT_CUTOFF < values.length)) + 8) =
      2 + FanoutTable.get_size (decide (SMALL_FANOUT_CUTOFF < values.length)) + 8 + 40 * ((sortedNodes values).countP (fun n => decide (pfxOf (decide (SMALL_FANOUT_CUTOFF < values.length)) n < pfxOf (decide (SMALL_FANOUT_CUTOFF < values.length)) k))) by omega]
    rw [write_drop values (40 * ((sortedNodes values).countP (fun n => decide (pfxOf (decide (SMALL_FANOUT_CUTOFF < values.length)) n < pfxOf (decide (SMALL_FANOUT_CUTOFF < values.length)) k))))]
    rw [show 2 + FanoutTable.get_size (decide (SMALL_FANOUT_CUTOFF < values.length)) + 8 + 40 * ((sortedNodes values).countP (fun n => decide (pfxOf (decide (SMALL_FANOUT_CUTOFF < values.length)) n < pfxOf (decide (SMALL_FANOUT_CUTOFF < values.length)) k + 1))) -
      (2 + FanoutTable.get_size (decide (SMALL_FANOUT_CUTOFF < values.length)) + 8 + 40 * ((sortedNodes values).countP (fun n => decide (pfxOf (decide (SMALL_FANOUT_CUTOFF < values.length)) n < pfxOf (decide (SMALL_FANOUT_CUTOFF < values.length)) k)))) =
      40 * (((sortedNodes values).countP (fun n => decide (pfxOf (decide (SMALL_FANOUT_CUTOFF < values.length)) n < pfxOf (decide (SMALL_FANOUT_CUTOFF < values.length)) k + 1))) - ((sortedNodes values).countP (fun n => decide (pfxOf (decide (SMALL_FANOUT_CUTOFF < values.length)) n < pfxOf (decide (SMALL_FANOUT_CUTOFF < values.length)) k)))) by omega]
    rw [flatMap_drop_blocks _ 40 ((sortedNodes values).countP (fun n => decide (pfxOf (decide (SMALL_FANOUT_CUTOFF < values.length)) n < pfxOf (decide (SMALL_FANOUT_CUTOFF < values.length)) k))) _ hulen]
    rw [flatMap_take_blocks _ 40 (((sortedNodes values).countP (fun n => decide (pfxOf (decide (SMALL_FANOUT_CUTOFF < values.length)) n < pfxOf (decide (SMALL_FANOUT_CUTOFF < values.length)) k + 1))) - ((sortedNodes values).countP (fun n => decide (pfxOf (decide (SMALL_FANOUT_CUTOFF < values.length)) n < pfxOf (decide (SMALL_FANOUT_CUTOFF < values.length)) k)))) _
      (fun nv hnv => hulen nv (List.mem_of_mem_drop hnv))]
  simp only [DataIndex.get_entry, Bind.bind, Except.bind, fanout_slice_write, hbounds,
    ENTRY_LEN]
  by_cases hmax : pfxOf (decide (SMALL_FANOUT_CUTOFF < values.length)) k = (if (decide (SMALL_FANOUT_CUTOFF < values.length)) = true then 65535 else 255)
  · have hbN : (sortedNodes values).countP (fun n => decide (pfxOf (decide (SMALL_FANOUT_CUTOFF < values.length)) n < pfxOf (decide (SMALL_FANOUT_CUTOFF < values.length)) k + 1)) = (sortedNodes values).length := by
      rw [List.countP_eq_length]
      intro n hn
      have hpb := pfx_bound (decide (SMALL_FANOUT_CUTOFF < values.length)) n (sortedNodes_valid values Hvalid n hn)
      have hslots : (if (decide (SMALL_FANOUT_CUTOFF < values.length)) = true then (65536 : Nat) else 256) =
          (if (decide (SMALL_FANOUT_CUTOFF < values.length)) = true then (65535 : Nat) else 255) + 1 := by
        by_cases hL : (decide (SMALL_FANOUT_CUTOFF < values.length)) = true <;> simp [hL]
      simp only [decide_eq_true_eq]
      omega
    rw [if_pos hmax]
    rw [hslice (DataIndex.write values).length
      (by rw [hflen, hbN, sortedNodes_length])]
    rcases hsearch : DataIndex.binary_search k
        ((((sortedValues values).drop ((sortedNodes values).countP (fun n => decide (pfxOf (decide (SMALL_FANOUT_CUTOFF < values.length)) n < pfxOf (decide (SMALL_FANOUT_CUTOFF < values.length)) k)))).take (((sortedNodes values).countP (fun n => decide (pfxOf (decide (SMALL_FANOUT_CUTOFF < values.length)) n < pfxOf (decide (SMALL_FANOUT_CUTOFF < values.length)) k + 1))) - ((sortedNodes values).countP (fun n => decide (pfxOf (decide (SMALL_FANOUT_CUTOFF < values.length)) n < pfxOf (decide (SMALL_FANOUT_CUTOFF < values.length)) k))))).flatMap
          (fun nv => (writeEntry (sortedNodes values) nv).writeBytes)) with e | off
    · simp
    · simp only []
      congr 1
      omega
  · rw [if_neg hmax]
    rw [hslice (40 * ((sortedNodes values).countP (fun n => decide (pfxOf (decide (SMALL_FANOUT_CUTOFF < values.length)) n < pfxOf (decide (SMALL_FANOUT_CUTOFF < values.length)) k + 1))) + (2 + FanoutTable.get_size (decide (SMALL_FANOUT_CUTOFF < values.length)) + 8)) (by omega)]
    rcases hsearch : DataIndex.binary_search k
        ((((sortedValues values).drop ((sortedNodes values).countP (fun n => decide (pfxOf (decide (SMALL_FANOUT_CUTOFF < values.length)) n < pfxOf (decide (SMALL_FANOUT_CUTOFF < values.length)) k)))).take (((sortedNodes values).countP (fun n => decide (pfxOf (decide (SMALL_FANOUT_CUTOFF < values.length)) n < pfxOf (decide (SMALL_FANOUT_CUTOFF < values.length)) k + 1))) - ((sortedNodes values).countP (fun n => decide (pfxOf (decide (SMALL_FANOUT_CUTOFF < values.length)) n < pfxOf (decide (SMALL_FANOUT_CUTOFF < values.length)) k))))).flatMap
          (fun nv => (writeEntry (sortedNodes values) nv).writeBytes)) with e | off
    · simp
    · simp only []
      congr 1
      omega

lemma sortedNodes_nodup (values : List (List Nat × DeltaLocation))
    (Hnodup : (values.map Prod.fst).Nodup) : (sortedNodes values).Nodup :=
  Hnodup.perm ((sortedValues_perm values).map Prod.fst).symm

lemma writeEntry_take20 (values : List (List Nat × DeltaLocation))
    (nv : List Nat × DeltaLocation) (h : ValidNode nv.1) :
    ((writeEntry (sortedNodes values) nv).writeBytes).take 20 = nv.1 := by
  rw [IndexEntry.writeBytes]
  have hnode : (writeEntry (sortedNodes values) nv).node = nv.1 := by
    rw [writeEntry, IndexEntry.new_node]
  rw [hnode, List.append_assoc, List.append_assoc]
  exact take_len_append _ _ _ h.1

lemma get_entry_write_found (values : List (List Nat × DeltaLocation))
    (Hvalid : ∀ nv ∈ values, ValidNode nv.1)
    (Hnodup : (values.map Prod.fst).Nodup)
    (Hsize : ENTRY_LEN * values.length < 2 ^ 31)
    (Hrange : ∀ nv ∈ values, nv.2.offset < 2 ^ 64 ∧ nv.2.size < 2 ^ 64)
    (j : Nat) (hj : j < (sortedValues values).length) :
    DataIndex.get_entry
      (DataIndex.mk (DataIndex.write values)
        (FanoutTable.get_size (decide (SMALL_FANOUT_CUTOFF < values.length)))
        (2 + FanoutTable.get_size (decide (SMALL_FANOUT_CUTOFF < values.length)) + 8))
      ((sortedValues values).get ⟨j, hj⟩).1 =
      .ok (writeEntry (sortedNodes values) ((sortedValues values).get ⟨j, hj⟩)) := by
  have hkval : ValidNode ((sortedValues values).get ⟨j, hj⟩).1 :=
    sortedValues_valid values Hvalid _ (List.get_mem _ j hj)
  rw [get_entry_write_eval values Hvalid Hsize _ hkval]
  have hnslen : (sortedNodes values).length = (sortedValues values).length := by
    rw [sortedNodes, List.length_map]
  obtain ⟨hab, hble, hmem⟩ := mid_window (decide (SMALL_FANOUT_CUTOFF < values.length)) values Hvalid Hnodup (pfxOf (decide (SMALL_FANOUT_CUTOFF < values.length)) ((sortedValues values).get ⟨j, hj⟩).1)
  have hkns : ((sortedValues values).get ⟨j, hj⟩).1 ∈ sortedNodes values :=
    List.mem_map.mpr ⟨_, List.get_mem _ j hj, rfl⟩
  have hkmid := hmem _ hkns rfl
  obtain ⟨i, hi, hik⟩ := List.mem_iff_getElem.mp hkmid
  have hi2 : i < ((sortedNodes values).countP (fun n => decide (pfxOf (decide (SMALL_FANOUT_CUTOFF < values.length)) n < pfxOf (decide (SMALL_FANOUT_CUTOFF < values.length)) ((sortedValues values).get ⟨j, hj⟩).1 + 1))) - ((sortedNodes values).countP (fun n => decide (pfxOf (decide (SMALL_FANOUT_CUTOFF < values.length)) n < pfxOf (decide (SMALL_FANOUT_CUTOFF < values.length)) ((sortedValues values).get ⟨j, hj⟩).1))) := by
    have := List.length_take (((sortedNodes values).countP (fun n => decide (pfxOf (decide (SMALL_FANOUT_CUTOFF < values.length)) n < pfxOf (decide (SMALL_FANOUT_CUTOFF < values.length)) ((sortedValues values).get ⟨j, hj⟩).1 + 1))) - ((sortedNodes values).countP (fun n => decide (pfxOf (decide (SMALL_FANOUT_CUTOFF < values.length)) n < pfxOf (decide (SMALL_FANOUT_CUTOFF < values.length)) ((sortedValues values).get ⟨j, hj⟩).1)))) ((sortedNodes values).drop ((sortedNodes values).countP (fun n => decide (pfxOf (decide (SMALL_FANOUT_CUTOFF < values.length)) n < pfxOf (decide (SMALL_FANOUT_CUTOFF < values.length)) ((sortedValues values).get ⟨j, hj⟩).1))))
    omega
  have hik2 : (sortedNodes values).get ⟨((sortedNodes values).countP (fun n => decide (pfxOf (decide (SMALL_FANOUT_CUTOFF < values.length)) n < pfxOf (decide (SMALL_FANOUT_CUTOFF < values.length)) ((sortedValues values).get ⟨j, hj⟩).1))) + i, by omega⟩ = ((sortedValues values).get ⟨j, hj⟩).1 := by
    simp only [List.getElem_take, List.getElem_drop] at hik
    rw [List.get_eq_getElem]
    exact hik
  have hmidlen : ((((sortedValues values).drop ((sortedNodes values).countP (fun n => decide (pfxOf (decide (SMALL_FANOUT_CUTOFF < values.length)) n < pfxOf (decide (SMALL_FANOUT_CUTOFF < values.length)) ((sortedValues values).get ⟨j, hj⟩).1)))).take (((sortedNodes values).countP (fun n => decide (pfxOf (decide (SMALL_FANOUT_CUTOFF < values.length)) n < pfxOf (decide (SMALL_FANOUT_CUTOFF < values.length)) ((sortedValues values).get ⟨j, hj⟩).1 + 1))) - ((sortedNodes values).countP (fun n => decide (pfxOf (decide (SMALL_FANOUT_CUTOFF < values.length)) n < pfxOf (decide (SMALL_FANOUT_CUTOFF < values.length)) ((sortedValues values).get ⟨j, hj⟩).1)))))).length = ((sortedNodes values).countP (fun n => decide (pfxOf (decide (SMALL_FANOUT_CUTOFF < values.length)) n < pfxOf (decide (SMALL_FANOUT_CUTOFF < values.length)) ((sortedValues values).get ⟨j, hj⟩).1 + 1))) - ((sortedNodes values).countP (fun n => decide (pfxOf (decide (SMALL_FANOUT_CUTOFF < values.length)) n < pfxOf (decide (SMALL_FANOUT_CUTOFF < values.length)) ((sortedValues values).get ⟨j, hj⟩).1))) := by
    rw [List.length_take, List.length_drop]
    have : ((sortedNodes values).countP (fun n => decide (pfxOf (decide (SMALL_FANOUT_CUTOFF < values.length)) n < pfxOf (decide (SMALL_FANOUT_CUTOFF < values.length)) ((sortedValues values).get ⟨j, hj⟩).1 + 1))) - ((sortedNodes values).countP (fun n => decide (pfxOf (decide (SMALL_FANOUT_CUTOFF < values.length)) n < pfxOf (decide (SMALL_FANOUT_CUTOFF < values.length)) ((sortedValues values).get ⟨j, hj⟩).1))) ≤ (sortedValues values).length - ((sortedNodes values).countP (fun n => decide (pfxOf (decide (SMALL_FANOUT_CUTOFF < values.length)) n < pfxOf (decide (SMALL_FANOUT_CUTOFF < values.length)) ((sortedValues values).get ⟨j, hj⟩).1))) := by omega
    omega
  have hi3 : i < ((((sortedValues values).drop ((sortedNodes values).countP (fun n => decide (pfxOf (decide (SMALL_FANOUT_CUTOFF < values.length)) n < pfxOf (decide (SMALL_FANOUT_CUTOFF < values.length)) ((sortedValues values).get ⟨j, hj⟩).1)))).take (((sortedNodes values).countP (fun n => decide (pfxOf (decide (SMALL_FANOUT_CUTOFF < values.length)) n < pfxOf (decide (SMALL_FANOUT_CUTOFF < values.length)) ((sortedValues values).get ⟨j, hj⟩).1 + 1))) - ((sortedNodes values).countP (fun n => decide (pfxOf (decide (SMALL_FANOUT_CUTOFF < values.length)) n < pfxOf (decide (SMALL_FANOUT_CUTOFF < values.length)) ((sortedValues values).get ⟨j, hj⟩).1)))))).length := by omega
  have hsvget : (((((sortedValues values).drop ((sortedNodes values).countP (fun n => decide (pfxOf (decide (SMALL_FANOUT_CUTOFF < values.length)) n < pfxOf (decide (SMALL_FANOUT_CUTOFF < values.length)) ((sortedValues values).get ⟨j, hj⟩).1)))).take (((sortedNodes values).countP (fun n => decide (pfxOf (decide (SMALL_FANOUT_CUTOFF < values.length)) n < pfxOf (decide (SMALL_FANOUT_CUTOFF < values.length)) ((sortedValues values).get ⟨j, hj⟩).1 + 1))) - ((sortedNodes values).countP (fun n => decide (pfxOf (decide (SMALL_FANOUT_CUTOFF < values.length)) n < pfxOf (decide (SMALL_FANOUT_CUTOFF < values.length)) ((sortedValues values).get ⟨j, hj⟩).1)))))).get ⟨i, hi3⟩).1 = ((sortedValues values).get ⟨j, hj⟩).1 := by
    simp only [List.get_eq_getElem, List.getElem_take, List.getElem_drop]
    have hx := hik2
    simp only [sortedNodes, List.getElem_map, List.get_eq_getElem] at hx
    exact hx
  have hmid_sub : ((((sortedValues values).drop ((sortedNodes values).countP (fun n => decide (pfxOf (decide (SMALL_FANOUT_CUTOFF < values.length)) n < pfxOf (decide (SMALL_FANOUT_CUTOFF < values.length)) ((sortedValues values).get ⟨j, hj⟩).1)))).take (((sortedNodes values).countP (fun n => decide (pfxOf (decide (SMALL_FANOUT_CUTOFF < values.length)) n < pfxOf (decide (SMALL_FANOUT_CUTOFF < values.length)) ((sortedValues values).get ⟨j, hj⟩).1 + 1))) - ((sortedNodes values).countP (fun n => decide (pfxOf (decide (SMALL_FANOUT_CUTOFF < values.length)) n < pfxOf (decide (SMALL_FANOUT_CUTOFF < values.length)) ((sortedValues values).get ⟨j, hj⟩).1)))))).Sublist (sortedValues values) :=
    (List.take_sublist _ _).trans (List.drop_sublist _ _)
  have hsearch := (binary_search_flatMap
    (fun nv => (writeEntry (sortedNodes values) nv).writeBytes) (fun nv => nv.1)
    ((((sortedValues values).drop ((sortedNodes values).countP (fun n => decide (pfxOf (decide (SMALL_FANOUT_CUTOFF < values.length)) n < pfxOf (decide (SMALL_FANOUT_CUTOFF < values.length)) ((sortedValues values).get ⟨j, hj⟩).1)))).take (((sortedNodes values).countP (fun n => decide (pfxOf (decide (SMALL_FANOUT_CUTOFF < values.length)) n < pfxOf (decide (SMALL_FANOUT_CUTOFF < values.length)) ((sortedValues values).get ⟨j, hj⟩).1 + 1))) - ((sortedNodes values).countP (fun n => decide (pfxOf (decide (SMALL_FANOUT_CUTOFF < values.length)) n < pfxOf (decide (SMALL_FANOUT_CUTOFF < values.length)) ((sortedValues values).get ⟨j, hj⟩).1)))))) ((sortedValues values).get ⟨j, hj⟩).1
    (fun nv hnv => writeEntry_writeBytes_length values nv
      (sortedValues_valid values Hvalid nv (hmid_sub.mem hnv)))
    (fun nv hnv => writeEntry_take20 values nv
      (sortedValues_valid values Hvalid nv (hmid_sub.mem hnv)))
    (List.Pairwise.sublist hmid_sub (sortedValues_pairwise_lt values Hnodup))).1
    i hi3 hsvget
  rw [hsearch]
  simp only []
  have hlt2 : ((sortedNodes values).countP (fun n => decide (pfxOf (decide (SMALL_FANOUT_CUTOFF < values.length)) n < pfxOf (decide (SMALL_FANOUT_CUTOFF < values.length)) ((sortedValues values).get ⟨j, hj⟩).1))) + i < (sortedValues values).length := by omega
  rw [show 40 * ((sortedNodes values).countP (fun n => decide (pfxOf (decide (SMALL_FANOUT_CUTOFF < values.length)) n < pfxOf (decide (SMALL_FANOUT_CUTOFF < values.length)) ((sortedValues values).get ⟨j, hj⟩).1))) + i * 40 = 40 * (((sortedNodes values).countP (fun n => decide (pfxOf (decide (SMALL_FANOUT_CUTOFF < values.length)) n < pfxOf (decide (SMALL_FANOUT_CUTOFF < values.length)) ((sortedValues values).get ⟨j, hj⟩).1))) + i) by ring]
  rw [read_entry_write values Hvalid Hsize Hrange _ hlt2]
  have hjns : j < (sortedNodes values).length := by omega
  have hains : ((sortedNodes values).countP (fun n => decide (pfxOf (decide (SMALL_FANOUT_CUTOFF < values.length)) n < pfxOf (decide (SMALL_FANOUT_CUTOFF < values.length)) ((sortedValues values).get ⟨j, hj⟩).1))) + i < (sortedNodes values).length := by omega
  have hnseq : (sortedNodes values).get ⟨((sortedNodes values).countP (fun n => decide (pfxOf (decide (SMALL_FANOUT_CUTOFF < values.length)) n < pfxOf (decide (SMALL_FANOUT_CUTOFF < values.length)) ((sortedValues values).get ⟨j, hj⟩).1))) + i, hains⟩ = (sortedNodes values).get ⟨j, hjns⟩ := by
    rw [hik2]
    simp only [sortedNodes, List.get_eq_getElem, List.getElem_map]
  have hnseq2 := hnseq
  simp only [List.get_eq_getElem] at hnseq2
  have hij := (List.Nodup.getElem_inj_iff (sortedNodes_nodup values Hnodup)).mp hnseq2
  have hfin : (⟨((sortedNodes values).countP (fun n => decide (pfxOf (decide (SMALL_FANOUT_CUTOFF < values.length)) n < pfxOf (decide (SMALL_FANOUT_CUTOFF < values.length)) ((sortedValues values).get ⟨j, hj⟩).1))) + i, hlt2⟩ :
      Fin (sortedValues values).length) = ⟨j, hj⟩ := Fin.ext hij
  rw [hfin]

lemma get_entry_write_notfound (values : List (List Nat × DeltaLocation))
    (Hvalid : ∀ nv ∈ values, ValidNode nv.1)
    (Hnodup : (values.map Prod.fst).Nodup)
    (Hsize : ENTRY_LEN * values.length < 2 ^ 31)
    (n : List Nat) (hn : ValidNode n) (hnot : n ∉ values.map Prod.fst) :
    DataIndex.get_entry
      (DataIndex.mk (DataIndex.write values)
        (FanoutTable.get_size (decide (SMALL_FANOUT_CUTOFF < values.length)))
        (2 + FanoutTable.get_size (decide (SMALL_FANOUT_CUTOFF < values.length)) + 8))
      n = .error .keyNotFound := by
  rw [get_entry_write_eval values Hvalid Hsize n hn]
  have hmid_sub : ((((sortedValues values).drop ((sortedNodes values).countP (fun q => decide (pfxOf (decide (SMALL_FANOUT_CUTOFF < values.length)) q < pfxOf (decide (SMALL_FANOUT_CUTOFF < values.length)) n)))).take (((sortedNodes values).countP (fun q => decide (pfxOf (decide (SMALL_FANOUT_CUTOFF < values.length)) q < pfxOf (decide (SMALL_FANOUT_CUTOFF < values.length)) n + 1))) - ((sortedNodes values).countP (fun q => decide (pfxOf (decide (SMALL_FANOUT_CUTOFF < values.length)) q < pfxOf (decide (SMALL_FANOUT_CUTOFF < values.length)) n)))))).Sublist (sortedValues values) :=
    (List.take_sublist _ _).trans (List.drop_sublist _ _)
  have hne : ∀ nv ∈ ((((sortedValues values).drop ((sortedNodes values).countP (fun q => decide (pfxOf (decide (SMALL_FANOUT_CUTOFF < values.length)) q < pfxOf (decide (SMALL_FANOUT_CUTOFF < values.length)) n)))).take (((sortedNodes values).countP (fun q => decide (pfxOf (decide (SMALL_FANOUT_CUTOFF < values.length)) q < pfxOf (decide (SMALL_FANOUT_CUTOFF < values.length)) n + 1))) - ((sortedNodes values).countP (fun q => decide (pfxOf (decide (SMALL_FANOUT_CUTOFF < values.length)) q < pfxOf (decide (SMALL_FANOUT_CUTOFF < values.length)) n)))))), nv.1 ≠ n := by
    intro nv hnv heq
    apply hnot
    have hv : nv ∈ values :=
      (sortedValues_perm values).mem_iff.mp (hmid_sub.mem hnv)
    exact List.mem_map.mpr ⟨nv, hv, heq⟩
  have hsearch := (binary_search_flatMap
    (fun nv => (writeEntry (sortedNodes values) nv).writeBytes) (fun nv => nv.1)
    ((((sortedValues values).drop ((sortedNodes values).countP (fun q => decide (pfxOf (decide (SMALL_FANOUT_CUTOFF < values.length)) q < pfxOf (decide (SMALL_FANOUT_CUTOFF < values.length)) n)))).take (((sortedNodes values).countP (fun q => decide (pfxOf (decide (SMALL_FANOUT_CUTOFF < values.length)) q < pfxOf (decide (SMALL_FANOUT_CUTOFF < values.length)) n + 1))) - ((sortedNodes values).countP (fun q => decide (pfxOf (decide (SMALL_FANOUT_CUTOFF < values.length)) q < pfxOf (decide (SMALL_FANOUT_CUTOFF < values.length)) n)))))) n
    (fun nv hnv => writeEntry_writeBytes_length values nv
      (sortedValues_valid values Hvalid nv (hmid_sub.mem hnv)))
    (fun nv hnv => writeEntry_take20 values nv
      (sortedValues_valid values Hvalid nv (hmid_sub.mem hnv)))
    (List.Pairwise.sublist hmid_sub (sortedValues_pairwise_lt values Hnodup))).2 hne
  rw [hsearch]

/-- C1: writing any map of distinct valid 20-byte keys to `u64` locations
and reopening the produced file succeeds, and `get_entry` on every written
key returns an entry carrying that key and its original pack offset and
size.  The size hypotheses state the machine-width limits of the format
(`u64` location fields; a file whose entry region stays below `2 ^ 31`
bytes, the signed-offset limit of the on-disk format). -/
theorem dataindex_roundtrip (values : List (List Nat × DeltaLocation))
    (Hvalid : ∀ nv ∈ values, ValidNode nv.1)
    (Hnodup : (values.map Prod.fst).Nodup)
    (Hsize : ENTRY_LEN * values.length < 2 ^ 31)
    (Hrange : ∀ nv ∈ values, nv.2.offset < 2 ^ 64 ∧ nv.2.size < 2 ^ 64) :
    ∃ d, DataIndex.new (DataIndex.write values) = .ok d ∧
      ∀ k v, (k, v) ∈ values →
        ∃ e, d.get_entry k = .ok e ∧ e.node = k ∧
          e.pack_entry_offset = v.offset ∧ e.pack_entry_size = v.size := by
  refine ⟨_, new_write values, ?_⟩
  intro k v hkv
  have hmem : (k, v) ∈ sortedValues values := (sortedValues_perm values).mem_iff.mpr hkv
  obtain ⟨⟨j, hj⟩, hget⟩ := List.mem_iff_get.mp hmem
  have h2 := get_entry_write_found values Hvalid Hnodup Hsize Hrange j hj
  rw [hget] at h2
  exact ⟨_, h2, rfl, rfl, rfl⟩

/-- Witness for C1: a single zero node with offset 1 and size 2. -/
theorem dataindex_roundtrip_witness :
    ∃ d, DataIndex.new (DataIndex.write
        [(List.replicate 20 0, DeltaLocation.mk none 1 2)]) = .ok d ∧
      ∀ k v, (k, v) ∈ [(List.replicate 20 0, DeltaLocation.mk none 1 2)] →
        ∃ e, d.get_entry k = .ok e ∧ e.node = k ∧
          e.pack_entry_offset = v.offset ∧ e.pack_entry_size = v.size :=
  dataindex_roundtrip [(List.replicate 20 0, DeltaLocation.mk none 1 2)]
    (by decide) (by decide) (by decide) (by decide)

/-- C4: querying any valid 20-byte node that is not among the written keys
fails, and the failure is the key-not-found error (`KeyError`), a
constructor distinct from every other error kind. -/
theorem dataindex_missing_key (values : List (List Nat × DeltaLocation))
    (Hvalid : ∀ nv ∈ values, ValidNode nv.1)
    (Hnodup : (values.map Prod.fst).Nodup)
    (Hsize : ENTRY_LEN * values.length < 2 ^ 31)
    (n : List Nat) (hn : ValidNode n) (hnot : n ∉ values.map Prod.fst) :
    ∃ d, DataIndex.new (DataIndex.write values) = .ok d ∧
      d.get_entry n = .error .keyNotFound ∧
      DErr.keyNotFound ≠ DErr.invalidHeader ∧
      DErr.keyNotFound ≠ DErr.invalidEntryOffset ∧
      DErr.keyNotFound ≠ DErr.ioEof ∧
      ∀ v : Int, DErr.keyNotFound ≠ DErr.invalidDeltaBaseOffset v := by
  refine ⟨_, new_write values,
    get_entry_write_notfound values Hvalid Hnodup Hsize n hn hnot,
    by decide, by decide, by decide, fun v => by simp⟩

/-- Witness for C4: querying the all-ones node in a one-entry index. -/
theorem dataindex_missing_key_witness :
    ∃ d, DataIndex.new (DataIndex.write
        [(List.replicate 20 0, DeltaLocation.mk none 1 2)]) = .ok d ∧
      d.get_entry (List.replicate 20 1) = .error .keyNotFound ∧
      DErr.keyNotFound ≠ DErr.invalidHeader ∧
      DErr.keyNotFound ≠ DErr.invalidEntryOffset ∧
      DErr.keyNotFound ≠ DErr.ioEof ∧
      ∀ v : Int, DErr.keyNotFound ≠ DErr.invalidDeltaBaseOffset v :=
  dataindex_missing_key [(List.replicate 20 0, DeltaLocation.mk none 1 2)]
    (by decide) (by decide) (by decide) (List.replicate 20 1) (by decide) (by decide)

/-- C2: delta-base fidelity of the round trip.  A key written with no
delta base reads back `FullText`; one whose base is another written key
reads back `Offset o` where decoding the entry at `o` yields the base
node; one whose base is absent reads back `Missing` — and the write
itself never fails on a missing base (it is total and the file still
opens and serves the entry). -/
theorem dataindex_delta_base_fidelity (values : List (List Nat × DeltaLocation))
    (Hvalid : ∀ nv ∈ values, ValidNode nv.1)
    (Hnodup : (values.map Prod.fst).Nodup)
    (Hsize : ENTRY_LEN * values.length < 2 ^ 31)
    (Hrange : ∀ nv ∈ values, nv.2.offset < 2 ^ 64 ∧ nv.2.size < 2 ^ 64) :
    ∃ d, DataIndex.new (DataIndex.write values) = .ok d ∧
      ∀ k v, (k, v) ∈ values →
        (v.delta_base = none →
          ∃ e, d.get_entry k = .ok e ∧ e.delta_base_offset' = .fullText) ∧
        (∀ b, v.delta_base = some b → b ∈ values.map Prod.fst →
          ∃ e o eb, d.get_entry k = .ok e ∧ e.delta_base_offset' = .offset o ∧
            d.read_entry o = .ok eb ∧ eb.node = b) ∧
        (∀ b, v.delta_base = some b → b ∉ values.map Prod.fst →
          ∃ e, d.get_entry k = .ok e ∧ e.delta_base_offset' = .missing) := by
  refine ⟨_, new_write values, ?_⟩
  intro k v hkv
  have hmem : (k, v) ∈ sortedValues values := (sortedValues_perm values).mem_iff.mpr hkv
  obtain ⟨⟨j, hj⟩, hget⟩ := List.mem_iff_get.mp hmem
  have h2 := get_entry_write_found values Hvalid Hnodup Hsize Hrange j hj
  rw [hget] at h2
  have hmapns : ∀ b : List Nat, b ∈ values.map Prod.fst ↔ b ∈ sortedNodes values := by
    intro b
    rw [sortedNodes]
    exact (((sortedValues_perm values).map Prod.fst).mem_iff).symm
  refine ⟨?_, ?_, ?_⟩
  · intro hdb
    refine ⟨_, h2, ?_⟩
    simp [writeEntry, IndexEntry.new, resolveBase, hdb, IndexEntry.delta_base_offset']
  · intro b hdb hbmem
    have hbns : b ∈ sortedNodes values := (hmapns b).mp hbmem
    obtain ⟨i, hlt, hloc, hgeti⟩ := nodelocations_mem (sortedNodes values) b hbns
    have hi_sv : i < (sortedValues values).length := by
      rw [sortedNodes_length] at hlt
      rw [(sortedValues_perm values).length_eq]
      exact hlt
    have hsent : ENTRY_LEN * i < 2 ^ 31 := by
      have hlt2 : i < values.length := by rwa [sortedNodes_length] at hlt
      have : ENTRY_LEN * i < ENTRY_LEN * values.length :=
        (Nat.mul_lt_mul_left (by norm_num [ENTRY_LEN])).mpr hlt2
      omega
    have h1 : ¬ (ENTRY_LEN * i = 0xffffffff) := by
      norm_num [ENTRY_LEN] at hsent ⊢
      omega
    have h1' : ¬ (ENTRY_LEN * i = 0xfffffffe) := by
      norm_num [ENTRY_LEN] at hsent ⊢
      omega
    refine ⟨writeEntry (sortedNodes values) (k, v), ENTRY_LEN * i,
      writeEntry (sortedNodes values) ((sortedValues values).get ⟨i, hi_sv⟩),
      h2, ?_, ?_, ?_⟩
    · simp [writeEntry, IndexEntry.new, resolveBase, hdb, hloc,
        IndexEntry.delta_base_offset', h1, h1']
    · rw [show ENTRY_LEN * i = 40 * i from by norm_num [ENTRY_LEN]]
      exact read_entry_write values Hvalid Hsize Hrange i hi_sv
    · rw [writeEntry, IndexEntry.new_node]
      have hx := hgeti
      simp only [sortedNodes, List.get_eq_getElem, List.getElem_map] at hx
      rw [← hx]
      simp [List.get_eq_getElem]
  · intro b hdb hbnot
    have hbns : b ∉ sortedNodes values := fun h => hbnot ((hmapns b).mpr h)
    refine ⟨_, h2, ?_⟩
    simp [writeEntry, IndexEntry.new, resolveBase, hdb,
      nodelocations_not_mem (sortedNodes values) b hbns, IndexEntry.delta_base_offset']

/-- Witness for C2: one entry whose base names an absent node (spec S2). -/
theorem dataindex_delta_base_fidelity_witness :
    ∃ d, DataIndex.new (DataIndex.write
        [(List.replicate 20 0, DeltaLocation.mk (some (List.replicate 20 1)) 1 2)]) =
        .ok d ∧
      ∀ k v, (k, v) ∈
          [(List.replicate 20 0, DeltaLocation.mk (some (List.replicate 20 1)) 1 2)] →
        (v.delta_base = none →
          ∃ e, d.get_entry k = .ok e ∧ e.delta_base_offset' = .fullText) ∧
        (∀ b, v.delta_base = some b →
          b ∈ [(List.replicate 20 0,
            DeltaLocation.mk (some (List.replicate 20 1)) 1 2)].map Prod.fst →
          ∃ e o eb, d.get_entry k = .ok e ∧ e.delta_base_offset' = .offset o ∧
            d.read_entry o = .ok eb ∧ eb.node = b) ∧
        (∀ b, v.delta_base = some b →
          b ∉ [(List.replicate 20 0,
            DeltaLocation.mk (some (List.replicate 20 1)) 1 2)].map Prod.fst →
          ∃ e, d.get_entry k = .ok e ∧ e.delta_base_offset' = .missing) :=
  dataindex_delta_base_fidelity
    [(List.replicate 20 0, DeltaLocation.mk (some (List.replicate 20 1)) 1 2)]
    (by decide) (by decide) (by decide) (by decide)
